import Mathlib

/-!
Verification of the spec-kit task-document parser and GitHub-Projects
synchronization engine against its natural-language specification.

The Python sources under `src/specify_cli` are shallowly embedded:
pure functions become Lean functions on `List Char` / `String`,
stateful remote interaction becomes explicit state passing over a
remote-state record, and counters record how many mutation calls each
component issues.
-/

namespace SpecKit

/-! ## Data model (parser/models.py) -/

/-- models.py `Task`.  `phase_number` is an `Int` because the dataclass
annotates it as a Python `int` and the parser stores `int(match.group(1))`. -/
structure Task where
  id : String
  description : String
  is_completed : Bool
  is_parallel : Bool
  user_story : Option String
  file_paths : List String
  phase_number : Int
  group_title : Option String := none
  raw_line : String := ""
deriving DecidableEq, Repr

/-- models.py `StoryGroup`. -/
structure StoryGroup where
  title : String
  user_story : Option String
  tasks : List Task := []
deriving DecidableEq, Repr

/-- models.py `Phase`; `number` is an `Int`, mirroring the `int` annotation. -/
structure Phase where
  number : Int
  title : String
  purpose : Option String := none
  goal : Option String := none
  checkpoint : Option String := none
  independent_test : Option String := none
  priority : Option String := none
  user_story : Option String := none
  is_mvp : Bool := false
  groups : List StoryGroup := []
  direct_tasks : List Task := []
deriving DecidableEq, Repr

/-- models.py `Phase.all_tasks`: direct tasks followed by group tasks in order. -/
def Phase.all_tasks (p : Phase) : List Task :=
  p.direct_tasks ++ (p.groups.map StoryGroup.tasks).flatten

/-- models.py `TasksDocument`. -/
structure TasksDocument where
  title : String
  input_path : Option String := none
  branch : Option String := none
  phases : List Phase := []
deriving DecidableEq, Repr

/-- models.py `TasksDocument.all_tasks`. -/
def TasksDocument.all_tasks (d : TasksDocument) : List Task :=
  (d.phases.map Phase.all_tasks).flatten

/-- models.py `TasksDocument.task_count`. -/
def TasksDocument.task_count (d : TasksDocument) : Nat :=
  d.all_tasks.length

/-- models.py `TasksDocument.completed_count`. -/
def TasksDocument.completed_count (d : TasksDocument) : Nat :=
  (d.all_tasks.filter (fun t => t.is_completed)).length

/-- models.py `DependencyGraph.add_dependency` on the underlying association
list: the first entry keyed by `tid` gains `dep` at the end of its list unless
already present; a missing key is appended with a singleton list. -/
def addDepList : List (String × List String) → String → String → List (String × List String)
  | [], tid, dep => [(tid, [dep])]
  | (k, bs) :: rest, tid, dep =>
    if k = tid then (k, if dep ∈ bs then bs else bs ++ [dep]) :: rest
    else (k, bs) :: addDepList rest tid dep

/-- models.py `DependencyGraph`: insertion-ordered map from a task id to the
ordered list of task ids it depends on. -/
structure DependencyGraph where
  dependencies : List (String × List String) := []
deriving DecidableEq, Repr

/-- models.py `DependencyGraph.add_dependency`. -/
def DependencyGraph.add_dependency (g : DependencyGraph) (tid dep : String) : DependencyGraph :=
  ⟨addDepList g.dependencies tid dep⟩

/-- models.py `DependencyGraph.get_blockers`. -/
def DependencyGraph.get_blockers (g : DependencyGraph) (tid : String) : List String :=
  match g.dependencies.find? (fun kv => kv.1 = tid) with
  | some kv => kv.2
  | none => []

/-- `(a, b)` is an edge of the graph: task `a` depends on (is blocked by) `b`. -/
def edgeMem (g : DependencyGraph) (a b : String) : Prop :=
  ∃ bs, (a, bs) ∈ g.dependencies ∧ b ∈ bs

/-! ## Dependency graph builder (parser/dependency_graph.py)

`build_dependency_graph` walks each phase's flattened task list with two
cursors, `last_sequential_task` and `parallel_group_anchor`, and carries
`last_task_of_previous_phase` across phase boundaries. -/

/-- The inner per-phase loop of `build_dependency_graph`: state is
`(graph, last_sequential_task, parallel_group_anchor)`. -/
def innerFold : DependencyGraph → Option Task → Option Task → List Task →
    DependencyGraph × Option Task × Option Task
  | g, ls, anch, [] => (g, ls, anch)
  | g, ls, anch, t :: rest =>
    if t.is_parallel then
      innerFold (match anch with
        | some a => g.add_dependency t.id a.id
        | none => g) ls anch rest
    else
      innerFold (match ls with
        | some l => g.add_dependency t.id l.id
        | none => g) (some t) (some t) rest

/-- The outer loop of `build_dependency_graph`: empty phases are skipped, a
cross-phase edge links the first task of a nonempty phase to
`last_task_of_previous_phase`, and the carried id becomes the phase's last
sequential task, or its final task when every task was parallel. -/
def phaseFold : DependencyGraph → Option String → List Phase → DependencyGraph × Option String
  | g, lastPrev, [] => (g, lastPrev)
  | g, lastPrev, p :: rest =>
    match p.all_tasks with
    | [] => phaseFold g lastPrev rest
    | t0 :: _ =>
      let g1 := match lastPrev with
        | some b => g.add_dependency t0.id b
        | none => g
      let r := innerFold g1 none none p.all_tasks
      let newPrev : Option String := match r.2.1 with
        | some l => some l.id
        | none => (p.all_tasks.getLast?).map Task.id
      phaseFold r.1 newPrev rest

/-- dependency_graph.py `build_dependency_graph`. -/
def build_dependency_graph (doc : TasksDocument) : DependencyGraph :=
  (phaseFold ⟨[]⟩ none doc.phases).1

/-! ## Specification-side description of the inferred edges (spec section 4.2)

The spec describes the edge set positionally: every task gains an edge to the
most recent non-parallel task before it in its phase (parallel tasks fan out
from that anchor and never become one), and the first task of each later
phase gains an edge to the previous phase's last sequential task, or to its
final task when the phase had only parallel tasks. -/

/-- The non-parallel (sequential) tasks of a list. -/
def seqTasks (ts : List Task) : List Task :=
  ts.filter (fun t => !t.is_parallel)

/-- The "previous non-parallel task" of spec section 4.2 for position `i`,
seeded with an optional anchor carried into the list. -/
def lastSeqFrom (c : Option Task) (ts : List Task) (i : Nat) : Option Task :=
  match (seqTasks (ts.take i)).getLast? with
  | some t => some t
  | none => c

/-- Spec section 4.2, within-phase rule: position `i` of `ts` gains an edge to
the last non-parallel task strictly before it (or the seed anchor). -/
def innerSpec (c : Option Task) (ts : List Task) (a b : String) : Prop :=
  ∃ i, ∃ h : i < ts.length, a = (ts.get ⟨i, h⟩).id ∧
    ∃ t, lastSeqFrom c ts i = some t ∧ b = t.id

/-- Spec section 4.2: the dependency target a phase exposes to its successor,
"the last sequential task of the previous phase (or, if that phase had only
parallel tasks, its final task)". -/
def carryOf (ts : List Task) : Option String :=
  match (seqTasks ts).getLast? with
  | some t => some t.id
  | none => (ts.getLast?).map Task.id

/-- Phases that actually contain tasks (empty phases produce no edges). -/
def livePhases (ps : List Phase) : List Phase :=
  ps.filter (fun p => !p.all_tasks.isEmpty)

/-- The carry available to the `k`-th nonempty phase: the incoming seed for
`k = 0`, else the carry of the previous nonempty phase. -/
def prevCarry (c : Option String) (nf : List Phase) : Nat → Option String
  | 0 => c
  | Nat.succ k0 => (nf.get? k0).bind (fun p => carryOf p.all_tasks)

/-- Spec section 4.2, cross-phase rule relative to a seed carry. -/
def crossSpec (c : Option String) (ps : List Phase) (a b : String) : Prop :=
  ∃ k, ∃ h : k < (livePhases ps).length,
    (((livePhases ps).get ⟨k, h⟩).all_tasks.head?).map Task.id = some a ∧
    prevCarry c (livePhases ps) k = some b

/-- Spec section 4.2, the full edge set of a document. -/
def specEdge (doc : TasksDocument) (a b : String) : Prop :=
  (∃ p ∈ doc.phases, innerSpec none p.all_tasks a b) ∨ crossSpec none doc.phases a b

/-- The anchor left standing after a whole task list has been walked:
the list's last non-parallel task, else the seed. -/
def endSeq (c : Option Task) (ts : List Task) : Option Task :=
  match (seqTasks ts).getLast? with
  | some t => some t
  | none => c

/-- The carry left standing after a whole phase list has been walked:
the last nonempty phase's carry, else the seed. -/
def endCarry (c : Option String) (ps : List Phase) : Option String :=
  match (livePhases ps).getLast? with
  | some p => carryOf p.all_tasks
  | none => c

/-- The worked example of spec section 8 ("Dependency inference determinism"):
one phase whose direct tasks are T001 seq, T002 seq, T003 [P], T004 [P],
T005 seq. -/
def exampleTask (tid : String) (par : Bool) : Task :=
  { id := tid, description := "work", is_completed := false, is_parallel := par,
    user_story := none, file_paths := [], phase_number := 1 }

/-- Document holding the spec section 8 example phase. -/
def exampleDocC4 : TasksDocument :=
  { title := "Example",
    phases := [{ number := 1, title := "Setup",
                 direct_tasks := [exampleTask "T001" false, exampleTask "T002" false,
                                  exampleTask "T003" true, exampleTask "T004" true,
                                  exampleTask "T005" false] }] }

/-- `b` occurs strictly before `a` in the task list `l` (positions compared on
the flattened document order). -/
def Before (l : List Task) (a b : String) : Prop :=
  ∃ i j, ∃ hi : i < l.length, ∃ hj : j < l.length,
    j < i ∧ (l.get ⟨i, hi⟩).id = a ∧ (l.get ⟨j, hj⟩).id = b

/-- The flattened task order of a list of phases. -/
def flattenTs (ps : List Phase) : List Task :=
  (ps.map Phase.all_tasks).flatten

/-! ## Document parser (parser/tasks_parser.py)

The parser works line by line on stripped lines.  Each regex of the source is
embedded as a bespoke total matcher on `List Char` reproducing the Python
`re` semantics (anchored match, greedy/lazy groups with the backtracking the
patterns allow). -/

/-- Python `str.strip()` from the left (whitespace). -/
def lstripCs (cs : List Char) : List Char :=
  cs.dropWhile Char.isWhitespace

/-- Python `str.strip()` from the right (whitespace). -/
def rstripCs (cs : List Char) : List Char :=
  (cs.reverse.dropWhile Char.isWhitespace).reverse

/-- Python `str.strip()` (whitespace on both ends). -/
def stripCs (cs : List Char) : List Char :=
  rstripCs (lstripCs cs)

/-- Decimal digit run to a number (`int(...)` on a nonempty digit string). -/
def digitsToNat (ds : List Char) : Nat :=
  ds.foldl (fun n c => n * 10 + (c.toNat - 48)) 0

/-- Python substring test `pat in cs`. -/
def hasSubCs (pat : List Char) : List Char → Bool
  | [] => pat.isEmpty
  | c :: rest => if pat.isPrefixOf (c :: rest) then true else hasSubCs pat rest

/-- One fuelled pass of Python `str.replace` (all occurrences, left to right,
non-overlapping). -/
def replaceAllCs : Nat → List Char → List Char → List Char → List Char
  | 0, cs, _, _ => cs
  | Nat.succ fuel, cs, pat, rep =>
    if pat.isEmpty then cs
    else if pat.isPrefixOf cs then rep ++ replaceAllCs fuel (cs.drop pat.length) pat rep
    else match cs with
      | [] => []
      | c :: rest => c :: replaceAllCs fuel rest pat rep

/-- Python `str.replace`. -/
def pyReplace (cs pat rep : List Char) : List Char :=
  replaceAllCs (cs.length + 1) cs pat rep

/-- `TITLE_PATTERN`: `^# Tasks: (.+)$`. -/
def titleMatchCs (s : List Char) : Option (List Char) :=
  if "# Tasks: ".data.isPrefixOf s then
    let r := s.drop 9
    if r.isEmpty then none else some r
  else none

/-- `METADATA_INPUT_PATTERN`: `^..Input..: (.+)$`. -/
def inputMatchCs (s : List Char) : Option (List Char) :=
  if "**Input**: ".data.isPrefixOf s then
    let r := s.drop 11
    if r.isEmpty then none else some r
  else none

/-- The lazy group with optional backticks of `METADATA_BRANCH_PATTERN`:
one leading backtick is consumed when at least one character remains, and one
trailing backtick when at least two characters remain. -/
def branchTickStrip (r : List Char) : List Char :=
  let r1 := match r with
    | '`' :: rest => if rest.isEmpty then r else rest
    | _ => r
  match r1.getLast? with
  | some '`' => if r1.length ≥ 2 then r1.dropLast else r1
  | _ => r1

/-- `METADATA_BRANCH_PATTERN`. -/
def branchMatchCs (s : List Char) : Option (List Char) :=
  if "**Branch**: ".data.isPrefixOf s then
    let r := s.drop 12
    if r.isEmpty then none else some (branchTickStrip r)
  else none

/-- `PHASE_PATTERN`: `^## Phase (\d+): (.+)$`.  The number group is a pure
digit run — a decimal token such as `3.1` does not match. -/
def phaseMatchCs (s : List Char) : Option (List Char × List Char) :=
  if "## Phase ".data.isPrefixOf s then
    let r := s.drop 9
    let ds := r.takeWhile Char.isDigit
    if ds.isEmpty then none
    else match r.drop ds.length with
      | ':' :: ' ' :: rest => if rest.isEmpty then none else some (ds, rest)
      | _ => none
  else none

/-- The `\*\*<label>\*\*:?\s*(.+)$` shape shared by the four phase-metadata
patterns.  When everything after the optional colon is whitespace, the
backtracked `(.+)` keeps a single whitespace character (stripped to the empty
string by every caller, matching the Python behavior observationally). -/
def metaMatchCs (label : List Char) (s : List Char) : Option (List Char) :=
  if label.isPrefixOf s then
    let r0 := s.drop label.length
    let r1 := match r0 with
      | ':' :: rest => rest
      | _ => r0
    let g := lstripCs r1
    if g.isEmpty then (if r1.isEmpty then none else some [' ']) else some g
  else none

/-- Index of the last opening parenthesis of a character list. -/
def lastParenIdx : List Char → Option Nat
  | [] => none
  | c :: rest =>
    match lastParenIdx rest with
    | some i => some (i + 1)
    | none => if c = '(' then some 0 else none

/-- Does the bracket content have the `US\d+` shape? -/
def isUSDigits (content : List Char) : Bool :=
  match content with
  | 'U' :: 'S' :: ds => !ds.isEmpty && ds.all Char.isDigit
  | _ => false

/-- The two groups of `GROUP_PATTERN` `^### (.+?)(?:\s*\((US\d+)\))?$` applied
to the text after `### `: a trailing `(USn)` is split off when the remaining
prefix is nonempty (the caller strips the title, so the `\s*` between title
and parenthesis needs no separate handling). -/
def groupSplit (t : List Char) : List Char × Option (List Char) :=
  match t.getLast? with
  | some ')' =>
    let k := t.dropLast
    match lastParenIdx k with
    | some i =>
      let content := k.drop (i + 1)
      if isUSDigits content then
        let pre := k.take i
        if pre.isEmpty then (t, none) else (pre, some content)
      else (t, none)
    | none => (t, none)
  | _ => (t, none)

/-- `GROUP_PATTERN` on a full `### ` line. -/
def groupMatchCs (s : List Char) : Option (List Char × Option (List Char)) :=
  if "### ".data.isPrefixOf s then
    let t := s.drop 4
    if t.isEmpty then none else some (groupSplit t)
  else none

/-- Parse the `(\[US\d+\])` group of `TASK_PATTERN`: returns the bracketed
token and the rest. -/
def usTagSplit (x : List Char) : Option (List Char × List Char) :=
  match x with
  | '[' :: 'U' :: 'S' :: rest =>
    let ds := rest.takeWhile Char.isDigit
    if ds.isEmpty then none
    else match rest.drop ds.length with
      | ']' :: rest2 => some ('[' :: 'U' :: 'S' :: (ds ++ [']']), rest2)
      | _ => none
  | _ => none

/-- `\s*(.+)$`: the greedy whitespace run backtracks one character when
nothing else remains. -/
def descFrom (x : List Char) : Option (List Char) :=
  let d := lstripCs x
  if d.isEmpty then (if x.isEmpty then none else some [' ']) else some d

/-- `\s*(\[US\d+\])?\s*(.+)$` with the backtracking the lazy/optional groups
allow: an optional user-story tag is kept only when a description follows. -/
def tailUSDesc (x : List Char) : Option (Option (List Char) × List Char) :=
  match usTagSplit (lstripCs x) with
  | some (tok, rest2) =>
    match descFrom rest2 with
    | some d => some (some tok, d)
    | none => (descFrom x).map (fun d => (none, d))
  | none => (descFrom x).map (fun d => (none, d))

/-- `\s*(\[P\])?\s*(\[US\d+\])?\s*(.+)$`: the `[P]` marker is kept only when
the rest still matches; otherwise it is re-read as part of the description. -/
def tailMatchCs (r : List Char) : Option (Bool × Option (List Char) × List Char) :=
  let r1 := lstripCs r
  if "[P]".data.isPrefixOf r1 then
    match tailUSDesc (r1.drop 3) with
    | some (us, d) => some (true, us, d)
    | none => (tailUSDesc r).map (fun p => (false, p.1, p.2))
  else (tailUSDesc r).map (fun p => (false, p.1, p.2))

/-- `TASK_PATTERN`: `^- \[([ Xx])\] (T\d{3,4})\s*(\[P\])?\s*(\[US\d+\])?\s*(.+)$`.
The greedy `\d{3,4}` takes four digits when the tail still matches, else
three. -/
def taskMatchCs (s : List Char) :
    Option (Char × List Char × Bool × Option (List Char) × List Char) :=
  match s with
  | '-' :: ' ' :: '[' :: c :: ']' :: ' ' :: 'T' :: rest =>
    if c = ' ' || c = 'X' || c = 'x' then
      let ds := rest.takeWhile Char.isDigit
      if ds.length ≥ 4 then
        match tailMatchCs (rest.drop 4) with
        | some (p, us, d) => some (c, 'T' :: ds.take 4, p, us, d)
        | none =>
          match tailMatchCs (rest.drop 3) with
          | some (p, us, d) => some (c, 'T' :: ds.take 3, p, us, d)
          | none => none
      else if ds.length = 3 then
        match tailMatchCs (rest.drop 3) with
        | some (p, us, d) => some (c, 'T' :: ds.take 3, p, us, d)
        | none => none
      else none
    else none
  | _ => none

/-- `PRIORITY_PATTERN` `(?:Priority:\s*)?(P\d)` attempted at one position:
returns consumed length and the `P<digit>` group. -/
def prioMatchAt (cs : List Char) : Option (Nat × List Char) :=
  let withPre : Option (Nat × List Char) :=
    if "Priority:".data.isPrefixOf cs then
      let r := cs.drop 9
      let ws := r.takeWhile Char.isWhitespace
      match r.drop ws.length with
      | 'P' :: d :: _ => if d.isDigit then some (9 + ws.length + 2, ['P', d]) else none
      | _ => none
    else none
  match withPre with
  | some res => some res
  | none =>
    match cs with
    | 'P' :: d :: _ => if d.isDigit then some (2, ['P', d]) else none
    | _ => none

/-- `PRIORITY_PATTERN.search`. -/
def prioSearch : List Char → Option (List Char)
  | [] => none
  | c :: rest =>
    match prioMatchAt (c :: rest) with
    | some (_, g) => some g
    | none => prioSearch rest

/-- Fuelled body of `PRIORITY_PATTERN.sub('', ...)`. -/
def prioSubGo : Nat → List Char → List Char
  | 0, cs => cs
  | Nat.succ fuel, cs =>
    match cs with
    | [] => []
    | c :: rest =>
      match prioMatchAt (c :: rest) with
      | some (n, _) => prioSubGo fuel ((c :: rest).drop n)
      | none => c :: prioSubGo fuel rest

/-- `PRIORITY_PATTERN.sub('', ...)`. -/
def prioSub (cs : List Char) : List Char :=
  prioSubGo (cs.length + 1) cs

/-- The bare `US\d+` alternative of `USER_STORY_PATTERN`. -/
def usBare (cs : List Char) : Option (List Char) :=
  match cs with
  | 'U' :: 'S' :: rest =>
    let ds := rest.takeWhile Char.isDigit
    if ds.isEmpty then none else some ('U' :: 'S' :: ds)
  | _ => none

/-- `USER_STORY_PATTERN` `(?:User Story\s+(\d+)|(US\d+))` at one position;
the `User Story <n>` form is normalized to `US<n>` as `parse_phase_heading`
does. -/
def usMatchAt (cs : List Char) : Option (List Char) :=
  if "User Story".data.isPrefixOf cs then
    let r := cs.drop 10
    let ws := r.takeWhile Char.isWhitespace
    if ws.isEmpty then usBare cs
    else
      let ds := (r.drop ws.length).takeWhile Char.isDigit
      if ds.isEmpty then usBare cs else some ('U' :: 'S' :: ds)
  else usBare cs

/-- `USER_STORY_PATTERN.search`. -/
def usSearch : List Char → Option (List Char)
  | [] => none
  | c :: rest =>
    match usMatchAt (c :: rest) with
    | some g => some g
    | none => usSearch rest

/-- `re.sub(r'^Phase \d+:\s*', '', title)`. -/
def phasePrefixSub (t : List Char) : List Char :=
  if "Phase ".data.isPrefixOf t then
    let r := t.drop 6
    let ds := r.takeWhile Char.isDigit
    if ds.isEmpty then t
    else match r.drop ds.length with
      | ':' :: rest => lstripCs rest
      | _ => t
  else t

/-- tasks_parser.py `parse_phase_heading` (the unused numeric argument of the
source is omitted): returns cleaned title, priority, user story, MVP flag. -/
def parse_phase_heading (heading : List Char) :
    List Char × Option String × Option String × Bool :=
  let title0 := stripCs heading
  let mvp := hasSubCs "🎯".data heading
  let prioRes := prioSearch heading
  let title1 := match prioRes with
    | some _ => prioSub title0
    | none => title0
  let prio := prioRes.map String.mk
  let us := (usSearch heading).map String.mk
  let title2 := pyReplace (pyReplace (pyReplace (pyReplace title1 "🎯".data [])
    "MVP".data []) "(Priority:".data []) ")".data []
  let title3 := stripCs title2
  (phasePrefixSub title3, prio, us, mvp)

/-- Python word character (`\w`, ASCII view). -/
def isWordChar (c : Char) : Bool :=
  c.isAlphanum || c = '_'

/-- A character the file-path pattern can consume. -/
def isCChar (c : Char) : Bool :=
  isWordChar c || c = '.' || c = '-' || c = '/'

/-- The `\b` boundary of `FILE_PATH_PATTERN` before its first character. -/
def boundaryOk (prev : Option Char) (c : Char) : Bool :=
  if isWordChar c then
    match prev with
    | none => true
    | some p => !isWordChar p
  else if c = '-' then
    match prev with
    | none => false
    | some p => isWordChar p
  else false

/-- Last index `i ≥ 1` holding a dot followed by a word character — where the
greedy inner group of `FILE_PATH_PATTERN` hands over to `\.\w+`. -/
def lastDotPos : List Char → Nat → Option Nat
  | [], _ => none
  | '.' :: d :: rest, i =>
    (match lastDotPos (d :: rest) (i + 1) with
      | some j => some j
      | none => if 1 ≤ i && isWordChar d then some i else none)
  | _ :: rest, i => lastDotPos rest (i + 1)

/-- `FILE_PATH_PATTERN` (`\b[\w-]+(?:/[\w/.-]+)+\.\w+`) attempted at one
position: a `[\w-]+` segment, a slash, then the maximal run of path
characters truncated after the last viable `.ext`. -/
def matchPathAt (prev : Option Char) (cs : List Char) : Option (List Char × List Char) :=
  match cs with
  | [] => none
  | c :: _ =>
    if boundaryOk prev c then
      let seg1 := cs.takeWhile (fun ch => isWordChar ch || ch = '-')
      match cs.drop seg1.length with
      | '/' :: tail =>
        let u := tail.takeWhile isCChar
        match lastDotPos u 0 with
        | some d =>
          let ext := (u.drop (d + 1)).takeWhile isWordChar
          let tok := seg1 ++ '/' :: (u.take d ++ '.' :: ext)
          some (tok, cs.drop tok.length)
        | none => none
      | _ => none
    else none

/-- Fuelled scanner of `FILE_PATH_PATTERN.findall`. -/
def extractGo : Nat → Option Char → List Char → List String
  | 0, _, _ => []
  | Nat.succ fuel, prev, cs =>
    match cs with
    | [] => []
    | c :: rest =>
      match matchPathAt prev (c :: rest) with
      | some (tok, restAfter) => String.mk tok :: extractGo fuel tok.getLast? restAfter
      | none => extractGo fuel (some c) rest

/-- tasks_parser.py `extract_file_paths`. -/
def extract_file_paths (s : String) : List String :=
  extractGo (s.data.length + 1) none s.data

/-- The parser's line-by-line state: the document fields accumulated so far
plus `current_phase`, `current_group` and the `phase_number` context. -/
structure PState where
  title : String
  input_path : Option String
  branch : Option String
  phases : List Phase
  cur_phase : Option Phase
  cur_group : Option StoryGroup
  phase_number : Int
deriving DecidableEq, Repr

/-- Initial parser state (`TasksDocument(title="Untitled")`). -/
def initPState : PState :=
  { title := "Untitled", input_path := none, branch := none, phases := [],
    cur_phase := none, cur_group := none, phase_number := 0 }

/-- The flush performed at a phase heading and at end of input: the open
group joins its phase, the open phase joins the document. -/
def flushPhases (st : PState) : List Phase :=
  match st.cur_phase with
  | none => st.phases
  | some p =>
    let p2 := match st.cur_group with
      | some g => { p with groups := p.groups ++ [g] }
      | none => p
    st.phases ++ [p2]

/-- Strip leading/trailing square brackets (Python `.strip('[]')`). -/
def stripSquare (tok : List Char) : List Char :=
  ((tok.dropWhile (fun c => c = '[' || c = ']')).reverse.dropWhile
    (fun c => c = '[' || c = ']')).reverse

/-- The task branch of the parser loop: a matching task line is attached to
the open group or the open phase, and discarded when no phase is open. -/
def taskBranch (st : PState) (s : List Char) : PState :=
  match taskMatchCs s with
  | none => st
  | some (c, tid, isP, usRaw, descRaw) =>
    match st.cur_phase with
    | none => st
    | some p =>
      let desc1 := stripCs descRaw
      let desc2 := match desc1 with
        | ':' :: rest => stripCs rest
        | _ => desc1
      let t : Task :=
        { id := String.mk tid, description := String.mk desc2,
          is_completed := c.toUpper == 'X', is_parallel := isP,
          user_story := usRaw.map (fun tok => String.mk (stripSquare tok)),
          file_paths := extract_file_paths (String.mk desc2),
          phase_number := st.phase_number,
          group_title := st.cur_group.map StoryGroup.title,
          raw_line := String.mk s }
      match st.cur_group with
      | some g => { st with cur_group := some { g with tasks := g.tasks ++ [t] } }
      | none => { st with cur_phase := some { p with direct_tasks := p.direct_tasks ++ [t] } }

/-- The phase-metadata branch: only consulted with an open phase and no open
group; on no match the line continues to the task branch. -/
def metaBranch (st : PState) (s : List Char) : PState :=
  match st.cur_phase, st.cur_group with
  | some p, none =>
    (match metaMatchCs "**Purpose**".data s with
    | some t => { st with cur_phase := some { p with purpose := some (String.mk (stripCs t)) } }
    | none =>
      match metaMatchCs "**Goal**".data s with
      | some t => { st with cur_phase := some { p with goal := some (String.mk (stripCs t)) } }
      | none =>
        match metaMatchCs "**Checkpoint**".data s with
        | some t =>
          { st with cur_phase := some { p with checkpoint := some (String.mk (stripCs t)) } }
        | none =>
          match metaMatchCs "**Independent Test**".data s with
          | some t =>
            { st with cur_phase := some { p with independent_test := some (String.mk (stripCs t)) } }
          | none => taskBranch st s)
  | _, _ => taskBranch st s

/-- One iteration of the `parse_tasks_md` loop on a raw line. -/
def parseLine (st : PState) (raw : List Char) : PState :=
  let s := stripCs raw
  if s.isEmpty then st
  else if "##".data.isPrefixOf s && hasSubCs "Format:".data s then st
  else match titleMatchCs s with
  | some t => { st with title := String.mk (stripCs t) }
  | none =>
    match inputMatchCs s with
    | some t => { st with input_path := some (String.mk (stripCs t)) }
    | none =>
      match branchMatchCs s with
      | some t => { st with branch := some (String.mk (stripCs t)) }
      | none =>
        match phaseMatchCs s with
        | some (ds, heading) =>
          let pn : Int := Int.ofNat (digitsToNat ds)
          let r := parse_phase_heading heading
          let newPhase : Phase :=
            { number := pn, title := String.mk r.1, priority := r.2.1,
              user_story := r.2.2.1, is_mvp := r.2.2.2 }
          { title := st.title, input_path := st.input_path, branch := st.branch,
            phases := flushPhases st, cur_phase := some newPhase,
            cur_group := none, phase_number := pn }
        | none =>
          if "### ".data.isPrefixOf s && !("#### ".data.isPrefixOf s) && st.cur_phase.isSome then
            match groupMatchCs s with
            | some (g1, us) =>
              match st.cur_phase with
              | some p =>
                let p2 := match st.cur_group with
                  | some g => { p with groups := p.groups ++ [g] }
                  | none => p
                let ng : StoryGroup :=
                  { title := String.mk (stripCs g1), user_story := us.map String.mk, tasks := [] }
                { st with cur_phase := some p2, cur_group := some ng }
              | none => st
            | none => st
          else metaBranch st s

/-- The document assembled at end of input. -/
def finalizeDoc (st : PState) : TasksDocument :=
  { title := st.title, input_path := st.input_path, branch := st.branch,
    phases := flushPhases st }

/-- `parse_tasks_md` on a list of raw lines. -/
def parseLinesCs (ls : List (List Char)) : TasksDocument :=
  finalizeDoc (ls.foldl parseLine initPState)

/-- Python `content.split('\n')`. -/
def splitLinesCs : List Char → List (List Char)
  | [] => [[]]
  | '\n' :: rest => [] :: splitLinesCs rest
  | c :: rest =>
    match splitLinesCs rest with
    | [] => [[c]]
    | l :: ls => (c :: l) :: ls

/-- tasks_parser.py `parse_tasks_md`. -/
def parse_tasks_md (content : String) : TasksDocument :=
  parseLinesCs (splitLinesCs content.data)

/-- A line that matches none of the recognized line shapes in any parser
state (including the two skip rules, which also leave the state unchanged,
and excluding every pattern the state-dependent branches could consult). -/
def inertLine (raw : List Char) : Bool :=
  let s := stripCs raw
  s.isEmpty ||
  ("##".data.isPrefixOf s && hasSubCs "Format:".data s) ||
  ((titleMatchCs s).isNone && (inputMatchCs s).isNone && (branchMatchCs s).isNone &&
    (phaseMatchCs s).isNone && !("### ".data.isPrefixOf s) &&
    (metaMatchCs "**Purpose**".data s).isNone && (metaMatchCs "**Goal**".data s).isNone &&
    (metaMatchCs "**Checkpoint**".data s).isNone &&
    (metaMatchCs "**Independent Test**".data s).isNone && (taskMatchCs s).isNone)

/-- The document of the repository's own regression test
`test_parse_decimal_phase_number_and_direct_tasks`. -/
def decimalPhaseContent : String :=
  "# Tasks: Parser Coverage\n\n## Phase 3.1: Foundation\n- [ ] T001 Define baseline requirements in docs/requirements.md\n### Task Group: API\n- [ ] T002 Build endpoint in src/api.py\n"

/-! ## Hierarchy builder (github/hierarchy_builder.py)

The remote service and the builder's caches are modelled as one state: the
builder loads every remote issue into `_existing_issues_by_title` and every
project content id into `_project_issue_ids` at the start of a run and then
keeps both in lockstep with its own mutations (appends on create, body
writes on update, additions on attach), so a single issue list and a single
content-id list faithfully play both roles.  Counters record the number of
`createIssue`, `addProjectV2ItemById` and `updateIssue` calls issued. -/

/-- A remote issue as the sync engine sees it. -/
structure RIssue where
  id : String
  number : Nat
  title : String
  body : String
  parent : Option String
deriving DecidableEq, Repr

/-- Remote/builder state: the repository's issues in listing (= creation)
order, the project's content ids, a fresh-id allocator, and call counters. -/
structure HState where
  issues : List RIssue
  projIds : List String
  nextNum : Nat
  creates : Nat
  adds : Nat
  updates : Nat
deriving DecidableEq, Repr

/-- `_find_existing_issue`: the first issue with the given title and parent
id.  (The source's by-title index preserves listing order per title, so
searching the grouped candidates equals searching the listing.) -/
def findExisting : List RIssue → String → Option String → Option RIssue
  | [], _, _ => none
  | i :: rest, t, p => if i.title = t ∧ i.parent = p then some i else findExisting rest t p

/-- The body update performed on the cached/remote issue record. -/
def setBody (issues : List RIssue) (iid b : String) : List RIssue :=
  issues.map (fun i => if i.id = iid then { i with body := b } else i)

/-- hierarchy_builder.py `_create_issue` with the single project id of the
sync: reuse an existing `(title, parent)` match, re-writing its body only
when the computed body differs and attaching it to the project only when its
id is not yet a known content id; otherwise create a fresh issue with the
parent and project attached at creation time. -/
def createIssueStep (st : HState) (t b : String) (p : Option String) : HState × RIssue :=
  match findExisting st.issues t p with
  | some ex =>
    let stA := if b = ex.body then st
      else { st with issues := setBody st.issues ex.id b, updates := st.updates + 1 }
    let exA := if b = ex.body then ex else { ex with body := b }
    let stB := if exA.id ∈ stA.projIds then stA
      else { stA with projIds := stA.projIds ++ [exA.id], adds := stA.adds + 1 }
    (stB, exA)
  | none =>
    let ni : RIssue :=
      { id := "ISSUE_" ++ toString st.nextNum, number := st.nextNum,
        title := t, body := b, parent := p }
    ({ st with
        issues := st.issues ++ [ni], projIds := st.projIds ++ [ni.id],
        nextNum := st.nextNum + 1, creates := st.creates + 1 }, ni)

/-- `"Phase <n>: <title>"`. -/
def phaseTitle (p : Phase) : String :=
  "Phase " ++ toString p.number ++ ": " ++ p.title

/-- The tasks `create_hierarchy` counts for a phase
(`doc.all_tasks` filtered by `phase_number`). -/
def phaseTasksOf (doc : TasksDocument) (p : Phase) : List Task :=
  doc.all_tasks.filter (fun t => t.phase_number == p.number)

/-- The phase issue body assembled by `create_hierarchy`. -/
def phaseBody (doc : TasksDocument) (p : Phase) : String :=
  String.intercalate "\n\n"
    ((match p.purpose with
      | some x => ["**Purpose**: " ++ x]
      | none => []) ++
    (match p.goal with
      | some x => ["**Goal**: " ++ x]
      | none => []) ++
    (match p.checkpoint with
      | some x => ["**Checkpoint**: " ++ x]
      | none => []) ++
    ["\n**Tasks**: " ++ toString (phaseTasksOf doc p).length ++ " total"])

/-- The tasks `create_hierarchy` attributes to a group
(`doc.all_tasks` filtered by phase number and group title). -/
def groupTasksOf (doc : TasksDocument) (p : Phase) (g : StoryGroup) : List Task :=
  doc.all_tasks.filter (fun t => t.phase_number == p.number && t.group_title == some g.title)

/-- The group issue body assembled by `create_hierarchy`. -/
def groupBody (doc : TasksDocument) (p : Phase) (g : StoryGroup) : String :=
  let base := "**Phase**: " ++ toString p.number ++ "\n\n**Tasks**: " ++
    toString (groupTasksOf doc p g).length ++ " total"
  match g.user_story with
  | some us => "**User Story**: " ++ us ++ "\n\n" ++ base
  | none => base

/-- The task issue title `"[<id>] <description>"`. -/
def taskTitle (t : Task) : String :=
  "[" ++ t.id ++ "] " ++ t.description

/-- The task issue body assembled by `create_hierarchy`. -/
def taskBody (t : Task) : String :=
  "**Task ID**: " ++ t.id ++ "\n\n**Description**: " ++ t.description ++
    (if t.is_parallel then
      "\n\n**Parallel**: Yes - Can be executed in parallel with other parallel tasks"
    else "") ++
    (if t.file_paths.isEmpty then ""
    else "\n\n**Files**:\n" ++
      String.intercalate "\n" (t.file_paths.map (fun fp => "- `" ++ fp ++ "`")))

/-- The group key `"<phase-number>:<group-title>"`. -/
def groupKeyStr (p : Phase) (g : StoryGroup) : String :=
  toString p.number ++ ":" ++ g.title

/-- Python dict assignment on an association list: overwrite in place, else
append. -/
def mapInsertP {κ : Type} [DecidableEq κ] : List (κ × RIssue) → κ → RIssue → List (κ × RIssue)
  | [], k, v => [(k, v)]
  | (k0, v0) :: rest, k, v =>
    if k0 = k then (k0, v) :: rest else (k0, v0) :: mapInsertP rest k v

/-- One per-task step of `create_hierarchy` (both grouped and direct tasks):
create-or-reuse the task issue under the given parent and record it in the
task map. -/
def taskStepH (parentId : String) (acc : HState × List (String × RIssue)) (t : Task) :
    HState × List (String × RIssue) :=
  let r := createIssueStep acc.1 (taskTitle t) (taskBody t) (some parentId)
  (r.1, mapInsertP acc.2 t.id r.2)

/-- One per-group step of `create_hierarchy`: the group issue is a child of
its phase issue, its tasks children of the group issue. -/
def groupStepH (doc : TasksDocument) (p : Phase) (phaseIssueId : String)
    (acc : HState × List (String × RIssue) × List (String × RIssue)) (g : StoryGroup) :
    HState × List (String × RIssue) × List (String × RIssue) :=
  let r := createIssueStep acc.1 g.title (groupBody doc p g) (some phaseIssueId)
  let gm1 := mapInsertP acc.2.1 (groupKeyStr p g) r.2
  let r2 := (groupTasksOf doc p g).foldl (taskStepH r.2.id) (r.1, acc.2.2)
  (r2.1, gm1, r2.2)

/-- One per-phase step of `create_hierarchy`: the phase issue has no parent;
its groups and then its direct tasks follow. -/
def phaseStepH (doc : TasksDocument)
    (acc : HState × List (Int × RIssue) × List (String × RIssue) × List (String × RIssue))
    (p : Phase) :
    HState × List (Int × RIssue) × List (String × RIssue) × List (String × RIssue) :=
  let r := createIssueStep acc.1 (phaseTitle p) (phaseBody doc p) none
  let pm1 := mapInsertP acc.2.1 p.number r.2
  let r2 := p.groups.foldl (groupStepH doc p r.2.id) (r.1, acc.2.2.1, acc.2.2.2)
  let r3 := p.direct_tasks.foldl (taskStepH r.2.id) (r2.1, r2.2.2)
  (r3.1, pm1, r2.2.1, r3.2)

/-- hierarchy_builder.py `create_hierarchy`: walks phases, groups and tasks
in document order against the loaded remote state and returns the state plus
the phase/group/task issue maps. -/
def create_hierarchy (doc : TasksDocument) (st : HState) :
    HState × List (Int × RIssue) × List (String × RIssue) × List (String × RIssue) :=
  doc.phases.foldl (phaseStepH doc) (st, [], [], [])

/-! ### A flat view of the same walk, used for the idempotence proof -/

/-- Logical identity of a hierarchy entity. -/
inductive HKey : Type
  | phase (n : Int)
  | group (k : String)
  | task (tid : String)
deriving DecidableEq, Repr

/-- One `_create_issue` call of the walk: static title and body, parent
referenced by the key of an earlier entity. -/
structure HEnt where
  key : HKey
  title : String
  body : String
  parentKey : Option HKey
deriving DecidableEq, Repr

/-- Environment of already-built entities. -/
def envLookup : List (HKey × RIssue) → HKey → Option RIssue
  | [], _ => none
  | (k0, i0) :: rest, k => if k0 = k then some i0 else envLookup rest k

/-- Dict assignment for the environment. -/
def envInsert : List (HKey × RIssue) → HKey → RIssue → List (HKey × RIssue)
  | [], k, v => [(k, v)]
  | (k0, v0) :: rest, k, v =>
    if k0 = k then (k0, v) :: rest else (k0, v0) :: envInsert rest k v

/-- Run a flat entity script: each entity resolves its parent in the
environment, performs `createIssueStep`, and records its issue. -/
def runScript : List HEnt → HState → List (HKey × RIssue) → HState × List (HKey × RIssue)
  | [], st, env => (st, env)
  | e :: rest, st, env =>
    let pid : Option String := match e.parentKey with
      | none => none
      | some k => (envLookup env k).map (fun i => i.id)
    let r := createIssueStep st e.title e.body pid
    runScript rest r.1 (envInsert env e.key r.2)

/-- The task entity under a parent key. -/
def taskEnt (parentK : HKey) (t : Task) : HEnt :=
  { key := HKey.task t.id, title := taskTitle t, body := taskBody t, parentKey := some parentK }

/-- The entities of one group: the group issue then its tasks. -/
def groupEnts (doc : TasksDocument) (p : Phase) (g : StoryGroup) : List HEnt :=
  { key := HKey.group (groupKeyStr p g), title := g.title, body := groupBody doc p g,
    parentKey := some (HKey.phase p.number) } ::
    (groupTasksOf doc p g).map (taskEnt (HKey.group (groupKeyStr p g)))

/-- The entities of one phase: the phase issue, its groups with their tasks,
then its direct tasks. -/
def phaseEnts (doc : TasksDocument) (p : Phase) : List HEnt :=
  { key := HKey.phase p.number, title := phaseTitle p, body := phaseBody doc p,
    parentKey := none } ::
    ((p.groups.map (groupEnts doc p)).flatten ++
      (p.direct_tasks.map (taskEnt (HKey.phase p.number))))

/-- The whole document as a flat script in walk order. -/
def scriptOf (doc : TasksDocument) : List HEnt :=
  (doc.phases.map (phaseEnts doc)).flatten

/-- The phase-map part of an environment. -/
def phasePartE (env : List (HKey × RIssue)) : List (Int × RIssue) :=
  env.filterMap (fun kv => match kv.1 with
    | HKey.phase n => some (n, kv.2)
    | _ => none)

/-- The group-map part of an environment. -/
def groupPartE (env : List (HKey × RIssue)) : List (String × RIssue) :=
  env.filterMap (fun kv => match kv.1 with
    | HKey.group k => some (k, kv.2)
    | _ => none)

/-- The task-map part of an environment. -/
def taskPartE (env : List (HKey × RIssue)) : List (String × RIssue) :=
  env.filterMap (fun kv => match kv.1 with
    | HKey.task tid => some (tid, kv.2)
    | _ => none)

/-- Zero the call counters (observation of one run). -/
def resetCalls (st : HState) : HState :=
  { st with creates := 0, adds := 0, updates := 0 }

/-- The issue-id view of a keyed issue map. -/
def mapIds {κ : Type} (m : List (κ × RIssue)) : List (κ × String) :=
  m.map (fun kv => (kv.1, kv.2.id))

/-- Everything of an issue list except bodies (find decisions and ids depend
only on this). -/
def issuesSkel (l : List RIssue) : List (String × Nat × String × Option String) :=
  l.map (fun i => (i.id, i.number, i.title, i.parent))

/-- Pointwise key/issue-id agreement of two environments. -/
def envRel : List (HKey × RIssue) → List (HKey × RIssue) → Prop
  | [], [] => True
  | (k1, i1) :: r1, (k2, i2) :: r2 => k1 = k2 ∧ i1.id = i2.id ∧ envRel r1 r2
  | _, _ => False

/-! ## Field value assignor (issue_manager.py) -/

/-- A project item of the paginated `GetProjectItemId` listing: the item id
plus the content issue number (`none` when the item's content is not an
issue). -/
structure PItem where
  itemId : String
  contentNum : Option Nat
deriving DecidableEq, Repr

/-- The per-page scan of `_get_project_item_id`: the first item whose
content number equals the wanted issue number. -/
def findNumP (items : List PItem) (n : Nat) : Option String :=
  match items.find? (fun it => it.contentNum == some n) with
  | some it => some it.itemId
  | none => none

/-- The pagination loop of `_get_project_item_id`: one gateway request per
page, early return on the page where the number is found, stop after the
page whose `hasNextPage` is false.  Returns the found item id and the number
of page requests this call issued. -/
def gpiGo (n : Nat) : List (List PItem) → Nat → Option String × Nat
  | [], reqs => (none, reqs)
  | pg :: rest, reqs =>
    match findNumP pg n with
    | some iid => (some iid, reqs + 1)
    | none => if rest.isEmpty then (none, reqs + 1) else gpiGo n rest (reqs + 1)

/-- issue_manager.py `_get_project_item_id`; an empty project answers with a
single empty page. -/
def get_project_item_id (pages : List (List PItem)) (n : Nat) : Option String × Nat :=
  match pages with
  | [] => (none, 1)
  | _ :: _ => gpiGo n pages 0

/-- The custom-field id mapping handed over by `setup_custom_fields`; an
absent `*_options` dict is the empty list. -/
structure FieldIds where
  taskIdF : String
  phaseF : String
  userStoryF : String
  parallelF : String
  priorityF : String
  phaseOptions : List (String × String)
  usOptions : List (String × String)
  parallelOptions : List (String × String)
  priorityOptions : List (String × String)
deriving DecidableEq, Repr

/-- Python `key in d` followed by `d[key]` on an option dict. -/
def optLookup (m : List (String × String)) (k : String) : Option String :=
  match m.find? (fun kv => kv.1 == k) with
  | some kv => some kv.2
  | none => none

/-- One `UPDATE_FIELD_VALUE_MUTATION` call. -/
inductive FMut : Type
  | text (itemId fieldId value : String)
  | select (itemId fieldId optionId : String)
deriving DecidableEq, Repr

/-- Python truthiness of an optional string (`None` and `""` are falsy). -/
def pyTruthyS : Option String → Bool
  | some s => !s.isEmpty
  | none => false

/-- issue_manager.py `_set_field_values` for one task project item: Task ID
text field, then Phase, User Story, Parallel and Priority single-selects,
each guarded by option-name membership. -/
def set_field_values_item (item_id : String) (t : Task) (p : Phase) (g : Option StoryGroup)
    (f : FieldIds) : List FMut :=
  [FMut.text item_id f.taskIdF t.id] ++
  (match optLookup f.phaseOptions ("Phase " ++ toString p.number ++ ": " ++ p.title) with
    | some oid => [FMut.select item_id f.phaseF oid]
    | none => []) ++
  (let usv :=
      match g with
      | some g0 =>
        if pyTruthyS g0.user_story then g0.user_story.getD "N/A"
        else if pyTruthyS t.user_story then t.user_story.getD "N/A"
        else "N/A"
      | none =>
        if pyTruthyS t.user_story then t.user_story.getD "N/A" else "N/A"
    match optLookup f.usOptions usv with
    | some oid => [FMut.select item_id f.userStoryF oid]
    | none => []) ++
  (match optLookup f.parallelOptions (if t.is_parallel then "Yes" else "No") with
    | some oid => [FMut.select item_id f.parallelF oid]
    | none => []) ++
  (match optLookup f.priorityOptions "N/A" with
    | some oid => [FMut.select item_id f.priorityF oid]
    | none => [])

/-- issue_manager.py `_set_group_field_values`: only the Phase single-select,
guarded by option-name membership. -/
def set_group_field_values (item_id : String) (p : Phase) (f : FieldIds) : List FMut :=
  match optLookup f.phaseOptions ("Phase " ++ toString p.number ++ ": " ++ p.title) with
  | some oid => [FMut.select item_id f.phaseF oid]
  | none => []

/-- The comparison `p.number == phase_number` in the group loop of
`set_field_values_all`: the left side is the `int` phase number of the model,
the right side the string split off the group key, and Python `int == str`
is always `False` (no coercion for `==`). -/
def intStrEq (_n : Int) (_s : String) : Bool := false

/-- Python `group_key.split(":", 1)` viewed as the optional split at the
first colon: `none` when the key holds no colon (a single-part split, which
the loop skips). -/
def splitColonGo : List Char → List Char → Option (String × String)
  | [], _ => none
  | c :: rest, seen =>
    if c = ':' then some (String.mk seen.reverse, String.mk rest)
    else splitColonGo rest (c :: seen)

/-- One task-map iteration of `set_field_values_all`: a fresh
`_get_project_item_id` pagination call, then task, phase and group
resolution, then the item's field mutations.  The accumulator is
`(mutations, page requests, set count)`. -/
def taskFieldStep (doc : TasksDocument) (pages : List (List PItem)) (f : FieldIds)
    (acc : List FMut × Nat × Nat) (kv : String × RIssue) : List FMut × Nat × Nat :=
  let r := get_project_item_id pages kv.2.number
  match r.1 with
  | none => (acc.1, acc.2.1 + r.2, acc.2.2)
  | some item_id =>
    match doc.all_tasks.find? (fun t => t.id == kv.1) with
    | none => (acc.1, acc.2.1 + r.2, acc.2.2)
    | some task =>
      match doc.phases.find? (fun p => p.number == task.phase_number) with
      | none => (acc.1, acc.2.1 + r.2, acc.2.2)
      | some phase =>
        let group := match task.group_title with
          | some gt =>
            if gt.isEmpty then none
            else phase.groups.find? (fun g => g.title == gt)
          | none => none
        (acc.1 ++ set_field_values_item item_id task phase group f,
          acc.2.1 + r.2, acc.2.2 + 1)

/-- One group-map iteration of `set_field_values_all`: key split, a fresh
`_get_project_item_id` pagination call, phase resolution via the int/str
comparison, group resolution, then the group's field mutations. -/
def groupFieldStep (doc : TasksDocument) (pages : List (List PItem)) (f : FieldIds)
    (acc : List FMut × Nat × Nat) (kv : String × RIssue) : List FMut × Nat × Nat :=
  match splitColonGo kv.1.data [] with
  | none => acc
  | some pr =>
    let r := get_project_item_id pages kv.2.number
    match r.1 with
    | none => (acc.1, acc.2.1 + r.2, acc.2.2)
    | some item_id =>
      match doc.phases.find? (fun p => intStrEq p.number pr.1) with
      | none => (acc.1, acc.2.1 + r.2, acc.2.2)
      | some phase =>
        match phase.groups.find? (fun g => g.title == pr.2) with
        | none => (acc.1, acc.2.1 + r.2, acc.2.2)
        | some _g =>
          (acc.1 ++ set_group_field_values item_id phase f, acc.2.1 + r.2, acc.2.2 + 1)

/-- The observables of one `set_field_values_all` run. -/
structure FieldRun where
  taskMuts : List FMut
  groupMuts : List FMut
  taskSet : Nat
  groupSet : Nat
  pageReqs : Nat
deriving DecidableEq, Repr

/-- issue_manager.py `set_field_values_all`: field values for every task
issue, then for every group issue; each item lookup is a fresh
`_get_project_item_id` pagination pass over the project's item pages. -/
def set_field_values_all (doc : TasksDocument) (pages : List (List PItem))
    (tm gm : List (String × RIssue)) (f : FieldIds) : FieldRun :=
  let tr := tm.foldl (taskFieldStep doc pages f) ([], 0, 0)
  let gr := gm.foldl (groupFieldStep doc pages f) ([], 0, 0)
  { taskMuts := tr.1, groupMuts := gr.1, taskSet := tr.2.2, groupSet := gr.2.2,
    pageReqs := tr.2.1 + gr.2.1 }

/-! ## Dependency linker (issue_manager.py `create_dependencies`) -/

/-- The outcome of one `ADD_BLOCKED_BY_MUTATION` gateway call. -/
inductive GwRes : Type
  | ok
  | err (msg : String)
deriving DecidableEq, Repr

/-- The error classification of `create_dependencies`: the lowercased
message (per-character lowering) contains both `"already"` and `"block"`. -/
def isAlreadyBlock (msg : String) : Bool :=
  hasSubCs "already".data (msg.data.map Char.toLower) &&
    hasSubCs "block".data (msg.data.map Char.toLower)

/-- Python `task_issue_map.get(k)`. -/
def lookupS (m : List (String × RIssue)) (k : String) : Option RIssue :=
  match m.find? (fun kv => kv.1 == k) with
  | some kv => some kv.2
  | none => none

/-- The inner blocker loop of `create_dependencies`: a missing blocker is
counted skipped; a gateway error naming an existing block is counted
skipped; any other gateway error propagates.  The accumulator is
`(created, skipped)`. -/
def linkBlockers (gw : String → String → GwRes) (tm : List (String × RIssue))
    (depId : String) : List String → Nat × Nat → Except String (Nat × Nat)
  | [], acc => Except.ok acc
  | b :: rest, acc =>
    match lookupS tm b with
    | none => linkBlockers gw tm depId rest (acc.1, acc.2 + 1)
    | some bi =>
      match gw depId bi.id with
      | GwRes.ok => linkBlockers gw tm depId rest (acc.1 + 1, acc.2)
      | GwRes.err msg =>
        if isAlreadyBlock msg then linkBlockers gw tm depId rest (acc.1, acc.2 + 1)
        else Except.error msg

/-- The outer entry loop of `create_dependencies`: a missing dependent skips
the whole blocker list. -/
def depEntries (gw : String → String → GwRes) (tm : List (String × RIssue)) :
    List (String × List String) → Nat × Nat → Except String (Nat × Nat)
  | [], acc => Except.ok acc
  | e :: rest, acc =>
    match lookupS tm e.1 with
    | none => depEntries gw tm rest (acc.1, acc.2 + e.2.length)
    | some di =>
      match linkBlockers gw tm di.id e.2 acc with
      | Except.ok acc2 => depEntries gw tm rest acc2
      | Except.error m => Except.error m

/-- issue_manager.py `create_dependencies`: the `(created, skipped)`
counters, or the propagated gateway error message. -/
def create_dependencies (gw : String → String → GwRes) (g : DependencyGraph)
    (tm : List (String × RIssue)) : Except String (Nat × Nat) :=
  depEntries gw tm g.dependencies (0, 0)

/-! ## Completion-state synchronizer (spec section 4.7)

The sync engine in `src` ends after the field assignor: the
completion-state step named by the spec (and exercised by the repository's
CLI flag `--sync-completion` and tests) has no `src` implementation, so it
is modelled from the spec here. -/

/-- Modelled from the spec: a cached record of the task-issue map as the
synchronizer sees it (issue id and current `OPEN`/`CLOSED` state). -/
structure CIssue where
  id : String
  number : Nat
  state : String
deriving DecidableEq, Repr

/-- Modelled from the spec: task-issue-map lookup. -/
def csLookup : List (String × CIssue) → String → Option CIssue
  | [], _ => none
  | kv :: rest, k => if kv.1 = k then some kv.2 else csLookup rest k

/-- Modelled from the spec: a state update writes the new state into the
cached record of that task id (keys are untouched, no entry is created). -/
def csSetState : List (String × CIssue) → String → String → List (String × CIssue)
  | [], _, _ => []
  | kv :: rest, k, s =>
    if kv.1 = k then (kv.1, { kv.2 with state := s }) :: csSetState rest k s
    else kv :: csSetState rest k s

/-- Modelled from the spec: the desired remote state for a completion flag. -/
def desiredState (b : Bool) : String := if b then "CLOSED" else "OPEN"

/-- Modelled from the spec: the case-normalized (per-character uppering)
test of a cached state. -/
def stateIsClosed (s : String) : Bool := s.data.map Char.toUpper == "CLOSED".data

/-- Modelled from the spec: one task of the synchronizer sweep over
`(map, update mutations, skipped)`: no known issue counts as skipped; a
matching state is a no-op; a differing state issues `(issue id, new state)`
and updates the cached record. -/
def csStep (acc : List (String × CIssue) × List (String × String) × Nat) (t : Task) :
    List (String × CIssue) × List (String × String) × Nat :=
  match csLookup acc.1 t.id with
  | none => (acc.1, acc.2.1, acc.2.2 + 1)
  | some iss =>
    if stateIsClosed iss.state = t.is_completed then acc
    else (csSetState acc.1 t.id (desiredState t.is_completed),
      acc.2.1 ++ [(iss.id, desiredState t.is_completed)], acc.2.2)

/-- Modelled from the spec: the Completion-State Synchronizer sweeps the
document's tasks against the task-issue map and returns the updated map,
the issued state-update mutations and the skipped count. -/
def sync_completion_states (doc : TasksDocument) (m : List (String × CIssue)) :
    List (String × CIssue) × List (String × String) × Nat :=
  doc.all_tasks.foldl csStep (m, [], 0)

/-! ## Sync engine dry-run (spec section 4.9)

The `src` copy of `SyncEngine.sync_tasks_to_project` has no `dry_run`
parameter although its CLI caller and the tests pass one, so the dry-run
pipeline is modelled from the spec. -/

/-- Modelled from the spec: one gateway call of the sync pipeline. -/
inductive GwCall : Type
  | query (name : String)
  | mutation (name : String)
deriving DecidableEq, Repr

/-- Whether a gateway call mutates remote state. -/
def GwCall.isMut : GwCall → Bool
  | GwCall.mutation _ => true
  | GwCall.query _ => false

/-- Modelled from the spec: the observables of one engine run. -/
structure SyncRunM where
  calls : List GwCall
  saves : List String
  doc : TasksDocument
  graph : DependencyGraph
deriving Repr

/-- Modelled from the spec: `sync_tasks_to_project` with the `dry_run` flag
its callers pass: parse, build the dependency graph, resolve the repository
(a query); with `dry_run` set, halt there with nothing persisted; otherwise
run the mutating pipeline of the spec's section 4.9 and persist the project
configuration. -/
def sync_tasks_to_project (content : String) (dryRun : Bool) : SyncRunM :=
  let doc := parse_tasks_md content
  let graph := build_dependency_graph doc
  if dryRun then
    { calls := [GwCall.query "GetRepository"], saves := [], doc := doc, graph := graph }
  else
    { calls := [GwCall.query "GetRepository",
        GwCall.mutation "CreateProjectV2", GwCall.mutation "CreateProjectField",
        GwCall.mutation "CreateIssue", GwCall.mutation "AddProjectV2ItemById",
        GwCall.mutation "UpdateProjectV2ItemFieldValue", GwCall.mutation "UpdateIssue",
        GwCall.mutation "AddBlockedBy"],
      saves := ["github-project.json"], doc := doc, graph := graph }

/-! ## Concrete example data for the issue-manager claims -/

/-- A one-phase document: phase 1 `Setup` with group `Core` holding task
T001. -/
def exTaskC6 : Task :=
  { id := "T001", description := "Init", is_completed := false, is_parallel := false,
    user_story := none, file_paths := [], phase_number := 1, group_title := some "Core" }

def exGroupC6 : StoryGroup :=
  { title := "Core", user_story := none, tasks := [exTaskC6] }

def exPhaseC6 : Phase :=
  { number := 1, title := "Setup", groups := [exGroupC6], direct_tasks := [] }

def exDocC6 : TasksDocument :=
  { title := "Example", phases := [exPhaseC6] }

/-- The group issue the builder would have produced for `Core`. -/
def exIssueC6 : RIssue :=
  { id := "I1", number := 7, title := "Core", body := "", parent := some "P1" }

/-- A second issue, on no page of the example project. -/
def exIssueC7 : RIssue :=
  { id := "I2", number := 8, title := "[T002] Next", body := "", parent := some "P1" }

/-- Field ids holding the option `Phase 1: Setup` the spec expects to be
assigned. -/
def exFieldIds : FieldIds :=
  { taskIdF := "F_TID", phaseF := "F_PH", userStoryF := "F_US", parallelF := "F_PAR",
    priorityF := "F_PRI",
    phaseOptions := [("Phase 1: Setup", "OPT_P1")], usOptions := [("N/A", "OPT_NA")],
    parallelOptions := [("No", "OPT_NO"), ("Yes", "OPT_YES")],
    priorityOptions := [("N/A", "OPT_PNA")] }

/-- A single-page project item listing holding issue number 7. -/
def exPagesC6 : List (List PItem) :=
  [[{ itemId := "ITEM_7", contentNum := some 7 }]]

/-- A gateway that reports the `ID_A` blocked-by `ID_B` link as already
existing and accepts everything else. -/
def exGw8 : String → String → GwRes := fun d b =>
  if d == "ID_A" && b == "ID_B" then GwRes.err "Issue is already blocked by this issue"
  else GwRes.ok

/-- A task-issue map for the linker example. -/
def exTm8 : List (String × RIssue) :=
  [("T001", { id := "ID_B", number := 1, title := "[T001] a", body := "", parent := none }),
    ("T002", { id := "ID_A", number := 2, title := "[T002] b", body := "", parent := none })]

/-- A one-task document whose task is completed. -/
def exTaskC1 : Task :=
  { id := "T001", description := "Init", is_completed := true, is_parallel := false,
    user_story := none, file_paths := [], phase_number := 1 }

def exDocC1 : TasksDocument :=
  { title := "Doc", phases := [{ number := 1, title := "Setup", direct_tasks := [exTaskC1] }] }

/-- A task-issue map whose cached issue is still open. -/
def exMapC1 : List (String × CIssue) :=
  [("T001", { id := "I1", number := 5, state := "OPEN" })]

/-! ## Theorems -/

lemma getLast?_cons_eq {α : Type} (t : α) (S : List α) :
    (t :: S).getLast? = (match S.getLast? with | some x => some x | none => some t) := by
  induction S generalizing t with
  | nil => rfl
  | cons s S ih =>
    rw [List.getLast?_cons_cons, ih s]
    cases h : S.getLast? <;> simp [ih]

lemma edgeMem_nil (a b : String) : ¬ edgeMem ⟨[]⟩ a b := by
  rintro ⟨bs, hmem, _⟩
  simp at hmem

lemma mem_addDepList (l : List (String × List String)) (tid dep a b : String) :
    (∃ bs, (a, bs) ∈ addDepList l tid dep ∧ b ∈ bs) ↔
      (a = tid ∧ b = dep) ∨ (∃ bs, (a, bs) ∈ l ∧ b ∈ bs) := by
  induction l with
  | nil =>
    simp only [addDepList, List.mem_singleton, Prod.mk.injEq]
    aesop
  | cons kv rest ih =>
    obtain ⟨k, bs⟩ := kv
    simp only [addDepList]
    split_ifs with hk hd
    · subst hk
      simp only [List.mem_cons, Prod.mk.injEq]
      aesop
    · subst hk
      simp only [List.mem_cons, Prod.mk.injEq, List.mem_append, List.mem_singleton]
      aesop
    · simp only [List.mem_cons, Prod.mk.injEq]
      constructor
      · rintro ⟨cs, ⟨ha, rfl⟩ | hcs, hb⟩
        · exact Or.inr ⟨cs, Or.inl ⟨ha, rfl⟩, hb⟩
        · rcases ih.mp ⟨cs, hcs, hb⟩ with h | ⟨ds, hds, hb2⟩
          · exact Or.inl h
          · exact Or.inr ⟨ds, Or.inr hds, hb2⟩
      · rintro (h | ⟨cs, ⟨ha, rfl⟩ | hcs, hb⟩)
        · rcases ih.mpr (Or.inl h) with ⟨ds, hds, hb2⟩
          exact ⟨ds, Or.inr hds, hb2⟩
        · exact ⟨cs, Or.inl ⟨ha, rfl⟩, hb⟩
        · rcases ih.mpr (Or.inr ⟨cs, hcs, hb⟩) with ⟨ds, hds, hb2⟩
          exact ⟨ds, Or.inr hds, hb2⟩

lemma edgeMem_add (g : DependencyGraph) (tid dep a b : String) :
    edgeMem (g.add_dependency tid dep) a b ↔ (a = tid ∧ b = dep) ∨ edgeMem g a b := by
  exact mem_addDepList g.dependencies tid dep a b

lemma lastSeqFrom_zero (c : Option Task) (ts : List Task) : lastSeqFrom c ts 0 = c := by
  simp [lastSeqFrom, seqTasks]

lemma seqTasks_cons (t : Task) (rest : List Task) :
    seqTasks (t :: rest) = if t.is_parallel then seqTasks rest else t :: seqTasks rest := by
  by_cases hp : t.is_parallel <;> simp [seqTasks, hp]

lemma lastSeqFrom_cons_succ (c : Option Task) (t : Task) (rest : List Task) (i : Nat) :
    lastSeqFrom c (t :: rest) (i + 1) =
      lastSeqFrom (if t.is_parallel then c else some t) rest i := by
  by_cases hp : t.is_parallel
  · simp [lastSeqFrom, List.take, seqTasks_cons, hp]
  · simp only [lastSeqFrom, List.take, seqTasks_cons, hp, if_neg, Bool.false_eq_true,
      if_false, getLast?_cons_eq]
    cases h : (seqTasks (rest.take i)).getLast? <;> simp [h]

lemma endSeq_nil (c : Option Task) : endSeq c [] = c := by
  simp [endSeq, seqTasks]

lemma endSeq_cons (c : Option Task) (t : Task) (rest : List Task) :
    endSeq c (t :: rest) = endSeq (if t.is_parallel then c else some t) rest := by
  by_cases hp : t.is_parallel
  · simp [endSeq, seqTasks_cons, hp]
  · simp only [endSeq, seqTasks_cons, hp, Bool.false_eq_true, if_false, getLast?_cons_eq]
    cases h : (seqTasks rest).getLast? <;> simp [h]

lemma innerSpec_nil (c : Option Task) (a b : String) : ¬ innerSpec c [] a b := by
  rintro ⟨i, hi, -⟩
  simp at hi

lemma innerSpec_cons (c : Option Task) (t : Task) (rest : List Task) (a b : String) :
    innerSpec c (t :: rest) a b ↔
      (∃ x, c = some x ∧ a = t.id ∧ b = x.id) ∨
        innerSpec (if t.is_parallel then c else some t) rest a b := by
  constructor
  · rintro ⟨i, hi, ha, x, hx, hb⟩
    cases i with
    | zero =>
      rw [lastSeqFrom_zero] at hx
      exact Or.inl ⟨x, hx, by simpa using ha, hb⟩
    | succ j =>
      rw [lastSeqFrom_cons_succ] at hx
      exact Or.inr ⟨j, by simp only [List.length_cons] at hi; omega, by simpa using ha, x, hx, hb⟩
  · rintro (⟨x, hx, ha, hb⟩ | ⟨j, hj, ha, x, hx, hb⟩)
    · exact ⟨0, by simp, by simpa using ha, x, by rw [lastSeqFrom_zero]; exact hx, hb⟩
    · exact ⟨j + 1, by simp only [List.length_cons]; omega, by simpa using ha, x,
        by rw [lastSeqFrom_cons_succ]; exact hx, hb⟩

lemma innerFold_spec (ts : List Task) : ∀ (g : DependencyGraph) (c : Option Task),
    (innerFold g c c ts).2.1 = endSeq c ts ∧ (innerFold g c c ts).2.2 = endSeq c ts ∧
      ∀ a b, edgeMem (innerFold g c c ts).1 a b ↔ edgeMem g a b ∨ innerSpec c ts a b := by
  induction ts with
  | nil =>
    intro g c
    refine ⟨by simp [innerFold, endSeq_nil], by simp [innerFold, endSeq_nil], ?_⟩
    intro a b
    simp [innerFold, innerSpec_nil c a b]
  | cons t rest ih =>
    intro g c
    by_cases hp : t.is_parallel
    · cases c with
      | none =>
        have hstep : innerFold g none none (t :: rest) = innerFold g none none rest := by
          simp [innerFold, hp]
        rw [hstep, endSeq_cons, if_pos hp]
        obtain ⟨h1, h2, h3⟩ := ih g none
        refine ⟨h1, h2, ?_⟩
        intro a b
        rw [h3 a b, innerSpec_cons, if_pos hp]
        simp
      | some x =>
        have hstep : innerFold g (some x) (some x) (t :: rest) =
            innerFold (g.add_dependency t.id x.id) (some x) (some x) rest := by
          simp [innerFold, hp]
        rw [hstep, endSeq_cons, if_pos hp]
        obtain ⟨h1, h2, h3⟩ := ih (g.add_dependency t.id x.id) (some x)
        refine ⟨h1, h2, ?_⟩
        intro a b
        rw [h3 a b, edgeMem_add, innerSpec_cons, if_pos hp]
        have hbr : (∃ y, (some x : Option Task) = some y ∧ a = t.id ∧ b = y.id) ↔
            (a = t.id ∧ b = x.id) := by simp
        rw [hbr]
        tauto
    · cases c with
      | none =>
        have hstep : innerFold g none none (t :: rest) =
            innerFold g (some t) (some t) rest := by
          simp [innerFold, hp]
        rw [hstep, endSeq_cons, if_neg hp]
        obtain ⟨h1, h2, h3⟩ := ih g (some t)
        refine ⟨h1, h2, ?_⟩
        intro a b
        rw [h3 a b, innerSpec_cons, if_neg hp]
        simp
      | some x =>
        have hstep : innerFold g (some x) (some x) (t :: rest) =
            innerFold (g.add_dependency t.id x.id) (some t) (some t) rest := by
          simp [innerFold, hp]
        rw [hstep, endSeq_cons, if_neg hp]
        obtain ⟨h1, h2, h3⟩ := ih (g.add_dependency t.id x.id) (some t)
        refine ⟨h1, h2, ?_⟩
        intro a b
        rw [h3 a b, edgeMem_add, innerSpec_cons, if_neg hp]
        have hbr : (∃ y, (some x : Option Task) = some y ∧ a = t.id ∧ b = y.id) ↔
            (a = t.id ∧ b = x.id) := by simp
        rw [hbr]
        tauto

lemma exists_mem_cons_split {α : Type} (x : α) (l : List α) (p : α → Prop) :
    (∃ y ∈ x :: l, p y) ↔ p x ∨ ∃ y ∈ l, p y := by
  constructor
  · rintro ⟨y, hy, hp⟩
    rcases List.mem_cons.mp hy with rfl | hy
    · exact Or.inl hp
    · exact Or.inr ⟨y, hy, hp⟩
  · rintro (hp | ⟨y, hy, hp⟩)
    · exact ⟨x, List.mem_cons_self x l, hp⟩
    · exact ⟨y, List.mem_cons_of_mem x hy, hp⟩

lemma livePhases_nil : livePhases [] = [] := rfl

lemma livePhases_cons_empty (p : Phase) (rest : List Phase) (h : p.all_tasks = []) :
    livePhases (p :: rest) = livePhases rest := by
  simp [livePhases, h]

lemma livePhases_cons_live (p : Phase) (rest : List Phase) (h : p.all_tasks ≠ []) :
    livePhases (p :: rest) = p :: livePhases rest := by
  simp only [livePhases, List.filter_cons]
  rw [if_pos]
  simpa [List.isEmpty_iff] using h

lemma prevCarry_cons (c : Option String) (p : Phase) (lv : List Phase) (j : Nat) :
    prevCarry c (p :: lv) (j + 1) = prevCarry (carryOf p.all_tasks) lv j := by
  cases j with
  | zero => simp [prevCarry]
  | succ i => simp [prevCarry]

lemma crossSpec_nil (c : Option String) (a b : String) : ¬ crossSpec c [] a b := by
  rintro ⟨k, hk, -⟩
  simp [livePhases] at hk

lemma crossSpec_cons_empty (c : Option String) (p : Phase) (rest : List Phase)
    (h : p.all_tasks = []) (a b : String) :
    crossSpec c (p :: rest) a b ↔ crossSpec c rest a b := by
  unfold crossSpec
  rw [livePhases_cons_empty p rest h]

lemma crossSpec_cons_live (c : Option String) (p : Phase) (rest : List Phase)
    (h : p.all_tasks ≠ []) (a b : String) :
    crossSpec c (p :: rest) a b ↔
      ((p.all_tasks.head?).map Task.id = some a ∧ c = some b) ∨
        crossSpec (carryOf p.all_tasks) rest a b := by
  unfold crossSpec
  rw [livePhases_cons_live p rest h]
  constructor
  · rintro ⟨k, hk, ha, hb⟩
    cases k with
    | zero =>
      exact Or.inl ⟨by simpa using ha, by simpa [prevCarry] using hb⟩
    | succ j =>
      rw [prevCarry_cons] at hb
      exact Or.inr ⟨j, by simp only [List.length_cons] at hk; omega, by simpa using ha, hb⟩
  · rintro (⟨ha, hb⟩ | ⟨j, hj, ha, hb⟩)
    · exact ⟨0, by simp, by simpa using ha, by simpa [prevCarry] using hb⟩
    · exact ⟨j + 1, by simp only [List.length_cons]; omega, by simpa using ha,
        by rw [prevCarry_cons]; exact hb⟩

lemma endCarry_nil (c : Option String) : endCarry c [] = c := rfl

lemma endCarry_cons_empty (c : Option String) (p : Phase) (rest : List Phase)
    (h : p.all_tasks = []) : endCarry c (p :: rest) = endCarry c rest := by
  unfold endCarry
  rw [livePhases_cons_empty p rest h]

lemma endCarry_cons_live (c : Option String) (p : Phase) (rest : List Phase)
    (h : p.all_tasks ≠ []) :
    endCarry c (p :: rest) = endCarry (carryOf p.all_tasks) rest := by
  unfold endCarry
  rw [livePhases_cons_live p rest h, getLast?_cons_eq]
  cases hl : (livePhases rest).getLast? <;> simp [hl]

lemma newPrev_carry (ts : List Task) :
    (match endSeq none ts with
      | some l => some l.id
      | none => (ts.getLast?).map Task.id) = carryOf ts := by
  unfold endSeq carryOf
  cases (seqTasks ts).getLast? <;> rfl

lemma phaseFold_spec (ps : List Phase) : ∀ (g : DependencyGraph) (c : Option String),
    (phaseFold g c ps).2 = endCarry c ps ∧
      ∀ a b, edgeMem (phaseFold g c ps).1 a b ↔
        edgeMem g a b ∨ (∃ p ∈ ps, innerSpec none p.all_tasks a b) ∨ crossSpec c ps a b := by
  induction ps with
  | nil =>
    intro g c
    refine ⟨rfl, ?_⟩
    intro a b
    simp [phaseFold, crossSpec_nil c a b]
  | cons p rest ih =>
    intro g c
    cases hts : p.all_tasks with
    | nil =>
      have hstep : phaseFold g c (p :: rest) = phaseFold g c rest := by
        simp [phaseFold, hts]
      rw [hstep, endCarry_cons_empty c p rest hts]
      obtain ⟨h1, h2⟩ := ih g c
      refine ⟨h1, ?_⟩
      intro a b
      rw [h2 a b, exists_mem_cons_split, crossSpec_cons_empty c p rest hts, hts]
      have hns : ¬ innerSpec none ([] : List Task) a b := innerSpec_nil none a b
      constructor
      · rintro (h | h | h)
        · exact Or.inl h
        · exact Or.inr (Or.inl (Or.inr h))
        · exact Or.inr (Or.inr h)
      · rintro (h | (h | h) | h)
        · exact Or.inl h
        · exact absurd h hns
        · exact Or.inr (Or.inl h)
        · exact Or.inr (Or.inr h)
    | cons t0 ts2 =>
      have hne : p.all_tasks ≠ [] := by rw [hts]; simp
      cases c with
      | none =>
        have hstep : phaseFold g none (p :: rest) =
            phaseFold (innerFold g none none (t0 :: ts2)).1
              (match (innerFold g none none (t0 :: ts2)).2.1 with
                | some l => some l.id
                | none => ((t0 :: ts2).getLast?).map Task.id) rest := by
          simp only [phaseFold, hts]
        obtain ⟨hi1, hi2, hi3⟩ := innerFold_spec (t0 :: ts2) g none
        rw [hi1, newPrev_carry] at hstep
        obtain ⟨h1, h2⟩ := ih (innerFold g none none (t0 :: ts2)).1 (carryOf (t0 :: ts2))
        constructor
        · rw [hstep, h1, endCarry_cons_live none p rest hne, hts]
        · intro a b
          rw [hstep, h2 a b, hi3 a b, exists_mem_cons_split,
            crossSpec_cons_live none p rest hne, hts]
          have hhead : ((((t0 :: ts2) : List Task).head?).map Task.id = some a) ↔ a = t0.id := by
            simp [eq_comm]
          rw [hhead]
          constructor
          · rintro ((h | h) | h | h)
            · exact Or.inl h
            · exact Or.inr (Or.inl (Or.inl h))
            · exact Or.inr (Or.inl (Or.inr h))
            · exact Or.inr (Or.inr (Or.inr h))
          · rintro (h | (h | h) | ⟨-, hb⟩ | h)
            · exact Or.inl (Or.inl h)
            · exact Or.inl (Or.inr h)
            · exact Or.inr (Or.inl h)
            · exact absurd hb (by simp)
            · exact Or.inr (Or.inr h)
      | some b0 =>
        have hstep : phaseFold g (some b0) (p :: rest) =
            phaseFold (innerFold (g.add_dependency t0.id b0) none none (t0 :: ts2)).1
              (match (innerFold (g.add_dependency t0.id b0) none none (t0 :: ts2)).2.1 with
                | some l => some l.id
                | none => ((t0 :: ts2).getLast?).map Task.id) rest := by
          simp only [phaseFold, hts]
        obtain ⟨hi1, hi2, hi3⟩ := innerFold_spec (t0 :: ts2) (g.add_dependency t0.id b0) none
        rw [hi1, newPrev_carry] at hstep
        obtain ⟨h1, h2⟩ := ih (innerFold (g.add_dependency t0.id b0) none none (t0 :: ts2)).1
          (carryOf (t0 :: ts2))
        constructor
        · rw [hstep, h1, endCarry_cons_live (some b0) p rest hne, hts]
        · intro a b
          rw [hstep, h2 a b, hi3 a b, edgeMem_add, exists_mem_cons_split,
            crossSpec_cons_live (some b0) p rest hne, hts]
          have hhead : ((((t0 :: ts2) : List Task).head?).map Task.id = some a) ↔ a = t0.id := by
            simp [eq_comm]
          have hcb : ((some b0 : Option String) = some b) ↔ b = b0 := by
            simp [eq_comm]
          rw [hhead, hcb]
          constructor
          · rintro (((⟨ha, hb⟩ | h) | h) | h | h)
            · exact Or.inr (Or.inr (Or.inl ⟨ha, hb⟩))
            · exact Or.inl h
            · exact Or.inr (Or.inl (Or.inl h))
            · exact Or.inr (Or.inl (Or.inr h))
            · exact Or.inr (Or.inr (Or.inr h))
          · rintro (h | (h | h) | ⟨ha, hb⟩ | h)
            · exact Or.inl (Or.inl (Or.inr h))
            · exact Or.inl (Or.inr h)
            · exact Or.inr (Or.inl h)
            · exact Or.inl (Or.inl (Or.inl ⟨ha, hb⟩))
            · exact Or.inr (Or.inr h)

lemma build_edges_iff (doc : TasksDocument) (a b : String) :
    edgeMem (build_dependency_graph doc) a b ↔ specEdge doc a b := by
  obtain ⟨-, h2⟩ := phaseFold_spec doc.phases ⟨[]⟩ none
  rw [build_dependency_graph, h2 a b, specEdge]
  have hnil : ¬ edgeMem ⟨[]⟩ a b := edgeMem_nil a b
  constructor
  · rintro (h | h)
    · exact absurd h hnil
    · exact h
  · exact Or.inr

/-- C4: `build_dependency_graph` yields exactly the edge set of the spec's
sequential/parallel rule: every task points at the last non-parallel task
before it in its phase (parallel tasks fan out from that anchor without
becoming one), and the first task of each later nonempty phase points at the
previous nonempty phase's last non-parallel task, or its final task when that
phase had only parallel tasks.  In particular the phase
[T001 seq, T002 seq, T003 [P], T004 [P], T005 seq] produces exactly the edges
T002→T001, T003→T002, T004→T002, T005→T002. -/
theorem c4_dependency_inference_determinism :
    (∀ (doc : TasksDocument) (a b : String),
        edgeMem (build_dependency_graph doc) a b ↔ specEdge doc a b) ∧
      build_dependency_graph exampleDocC4 =
        ⟨[("T002", ["T001"]), ("T003", ["T002"]), ("T004", ["T002"]), ("T005", ["T002"])]⟩ :=
  ⟨build_edges_iff, by rfl⟩

lemma before_append_right (pre l : List Task) (a b : String) (h : Before l a b) :
    Before (pre ++ l) a b := by
  obtain ⟨i, j, hi, hj, hji, ha, hb⟩ := h
  refine ⟨pre.length + i, pre.length + j, by simp; omega, by simp; omega, by omega, ?_, ?_⟩
  · rw [← ha]
    congr 1
    simp [List.get_eq_getElem]
    rw [List.getElem_append_right (by omega)]
    congr 1
    omega
  · rw [← hb]
    congr 1
    simp [List.get_eq_getElem]
    rw [List.getElem_append_right (by omega)]
    congr 1
    omega

lemma before_append_left (l suf : List Task) (a b : String) (h : Before l a b) :
    Before (l ++ suf) a b := by
  obtain ⟨i, j, hi, hj, hji, ha, hb⟩ := h
  refine ⟨i, j, by simp; omega, by simp; omega, hji, ?_, ?_⟩
  · rw [← ha]
    congr 1
    simp [List.get_eq_getElem]
    exact List.getElem_append_left hi
  · rw [← hb]
    congr 1
    simp [List.get_eq_getElem]
    exact List.getElem_append_left hj

lemma mem_pos_of_mem {t : Task} {l : List Task} (h : t ∈ l) :
    ∃ j, ∃ hj : j < l.length, l.get ⟨j, hj⟩ = t := by
  obtain ⟨⟨j, hj⟩, hget⟩ := List.mem_iff_get.mp h
  exact ⟨j, hj, hget⟩

lemma innerSpec_before (ts : List Task) (a b : String) (h : innerSpec none ts a b) :
    Before ts a b := by
  obtain ⟨i, hi, ha, t, hlast, hb⟩ := h
  have hsome : (seqTasks (ts.take i)).getLast? = some t := by
    unfold lastSeqFrom at hlast
    cases hget : (seqTasks (ts.take i)).getLast? with
    | none => rw [hget] at hlast; simp at hlast
    | some u =>
      rw [hget] at hlast
      simp at hlast
      rw [hlast]
  have hmemf : t ∈ seqTasks (ts.take i) := List.mem_of_mem_getLast? hsome
  have hmemt : t ∈ ts.take i := List.mem_of_mem_filter hmemf
  obtain ⟨⟨j, hjt⟩, hget⟩ := List.mem_iff_get.mp hmemt
  have hj2 : j < ts.length := by
    have := List.length_take_le i ts
    omega
  have hji : j < i := by
    have : (ts.take i).length ≤ i := List.length_take_le i ts
    omega
  refine ⟨i, j, hi, hj2, hji, ha.symm, ?_⟩
  rw [hb]
  have hgg : ts.get ⟨j, hj2⟩ = t := by
    rw [← hget]
    simp [List.get_eq_getElem, List.getElem_take]
  rw [hgg]

lemma carry_pos (ts : List Task) (x : String) (h : carryOf ts = some x) :
    ∃ j, ∃ hj : j < ts.length, (ts.get ⟨j, hj⟩).id = x := by
  unfold carryOf at h
  cases hget : (seqTasks ts).getLast? with
  | some t =>
    rw [hget] at h
    simp at h
    have hmem : t ∈ ts := List.mem_of_mem_filter (List.mem_of_mem_getLast? hget)
    obtain ⟨j, hj, hg⟩ := mem_pos_of_mem hmem
    exact ⟨j, hj, by rw [hg]; exact h⟩
  | none =>
    rw [hget] at h
    cases hlast : ts.getLast? with
    | none => rw [hlast] at h; simp at h
    | some t =>
      rw [hlast] at h
      simp at h
      have hmem : t ∈ ts := List.mem_of_mem_getLast? hlast
      obtain ⟨j, hj, hg⟩ := mem_pos_of_mem hmem
      exact ⟨j, hj, by rw [hg]; exact h⟩

lemma flattenTs_cons (p : Phase) (rest : List Phase) :
    flattenTs (p :: rest) = p.all_tasks ++ flattenTs rest := by
  simp [flattenTs]

lemma spec_edges_before (ps : List Phase) : ∀ (c : Option String) (pre : List Task),
    (∀ x, c = some x → ∃ j, ∃ hj : j < pre.length, (pre.get ⟨j, hj⟩).id = x) →
    ∀ a b, ((∃ p ∈ ps, innerSpec none p.all_tasks a b) ∨ crossSpec c ps a b) →
      Before (pre ++ flattenTs ps) a b := by
  induction ps with
  | nil =>
    rintro c pre hinv a b (⟨p, hp, -⟩ | hc)
    · simp at hp
    · exact absurd hc (crossSpec_nil c a b)
  | cons p rest ih =>
    intro c pre hinv a b h
    cases hts : p.all_tasks with
    | nil =>
      have hflat : pre ++ flattenTs (p :: rest) = pre ++ flattenTs rest := by
        rw [flattenTs_cons, hts]
        simp
      rw [hflat]
      apply ih c pre hinv a b
      rcases h with hin | hc
      · rcases (exists_mem_cons_split p rest _).mp hin with hp | hrest
        · rw [hts] at hp
          exact absurd hp (innerSpec_nil none a b)
        · exact Or.inl hrest
      · exact Or.inr ((crossSpec_cons_empty c p rest hts a b).mp hc)
    | cons t0 ts2 =>
      have hne : p.all_tasks ≠ [] := by rw [hts]; simp
      have hflat : pre ++ flattenTs (p :: rest) = (pre ++ p.all_tasks) ++ flattenTs rest := by
        rw [flattenTs_cons, List.append_assoc]
      have hinv2 : ∀ x, carryOf p.all_tasks = some x →
          ∃ j, ∃ hj : j < (pre ++ p.all_tasks).length, ((pre ++ p.all_tasks).get ⟨j, hj⟩).id = x := by
        intro x hx
        obtain ⟨j, hj, hg⟩ := carry_pos p.all_tasks x hx
        refine ⟨pre.length + j, by simp; omega, ?_⟩
        rw [← hg]
        congr 1
        simp [List.get_eq_getElem]
        rw [List.getElem_append_right (by omega)]
        congr 1
        omega
      rw [hflat]
      rcases h with hin | hc
      · rcases (exists_mem_cons_split p rest _).mp hin with hp | hrest
        · exact before_append_left _ _ a b (before_append_right pre _ a b (innerSpec_before _ a b hp))
        · exact ih (carryOf p.all_tasks) (pre ++ p.all_tasks) hinv2 a b (Or.inl hrest)
      · rw [crossSpec_cons_live c p rest hne a b] at hc
        rcases hc with ⟨ha, hb⟩ | hc
        · obtain ⟨j, hj, hg⟩ := hinv _ hb
          have ha2 : a = t0.id := by
            rw [hts] at ha
            simpa [eq_comm] using ha
          apply before_append_left
          refine ⟨pre.length, j, by simp [hts], by simp; omega, by omega, ?_, ?_⟩
          · rw [ha2]
            have hlen : pre.length < (pre ++ p.all_tasks).length := by simp [hts]
            have : (pre ++ p.all_tasks).get ⟨pre.length, hlen⟩ = t0 := by
              simp [List.get_eq_getElem]
              rw [List.getElem_append_right (by omega)]
              simp [hts]
            rw [this]
          · rw [← hg]
            congr 1
            simp [List.get_eq_getElem]
            exact List.getElem_append_left hj
        · exact ih (carryOf p.all_tasks) (pre ++ p.all_tasks) hinv2 a b (Or.inr hc)

lemma edges_before (doc : TasksDocument) (a b : String)
    (h : edgeMem (build_dependency_graph doc) a b) : Before doc.all_tasks a b := by
  have hs := (build_edges_iff doc a b).mp h
  have hrw : doc.all_tasks = [] ++ flattenTs doc.phases := by
    simp [flattenTs, TasksDocument.all_tasks]
  rw [hrw]
  exact spec_edges_before doc.phases none []
    (fun x hx => absurd hx (by simp)) a b hs

lemma pos_unique_of_nodup {l : List Task} (hnd : (l.map Task.id).Nodup)
    {i j : Nat} {hi : i < l.length} {hj : j < l.length}
    (h : (l.get ⟨i, hi⟩).id = (l.get ⟨j, hj⟩).id) : i = j := by
  have hi2 : i < (l.map Task.id).length := by simp; omega
  have hj2 : j < (l.map Task.id).length := by simp; omega
  have hg : (l.map Task.id).get ⟨i, hi2⟩ = (l.map Task.id).get ⟨j, hj2⟩ := by
    simp [List.get_eq_getElem]
    exact h
  have := (List.Nodup.get_inj_iff hnd).mp hg
  simpa using this

lemma before_glue {l : List Task} (hnd : (l.map Task.id).Nodup) {a b c : String}
    (h1 : Before l a b) (h2 : Before l b c) : Before l a c := by
  obtain ⟨i, j, hi, hj, hji, ha, hb⟩ := h1
  obtain ⟨i2, j2, hi2, hj2, hji2, hb2, hc2⟩ := h2
  have heq : j = i2 := pos_unique_of_nodup hnd (hb.trans hb2.symm)
  exact ⟨i, j2, hi, hj2, by omega, ha, hc2⟩

lemma before_irrefl {l : List Task} (hnd : (l.map Task.id).Nodup) (a : String) :
    ¬ Before l a a := by
  rintro ⟨i, j, hi, hj, hji, ha, hb⟩
  have : i = j := pos_unique_of_nodup hnd (ha.trans hb.symm)
  omega

/-- C10: in a document with pairwise distinct task ids, every inferred
dependency edge points from a task to a strictly earlier task in the
flattened document order; hence no task depends on itself and the graph's
dependency relation is acyclic. -/
theorem c10_dependency_graph_acyclic (doc : TasksDocument)
    (hnd : (doc.all_tasks.map Task.id).Nodup) :
    (∀ a b, edgeMem (build_dependency_graph doc) a b → Before doc.all_tasks a b) ∧
      (∀ a, ¬ edgeMem (build_dependency_graph doc) a a) ∧
      (∀ a, ¬ Relation.TransGen (fun x y => edgeMem (build_dependency_graph doc) x y) a a) := by
  have hbefore : ∀ a b, edgeMem (build_dependency_graph doc) a b → Before doc.all_tasks a b :=
    fun a b h => edges_before doc a b h
  have htrans : ∀ a b, Relation.TransGen (fun x y => edgeMem (build_dependency_graph doc) x y) a b →
      Before doc.all_tasks a b := by
    intro a b h
    induction h with
    | single h => exact hbefore _ _ h
    | tail hab hbc ihab => exact before_glue hnd ihab (hbefore _ _ hbc)
  refine ⟨hbefore, ?_, ?_⟩
  · intro a ha
    exact before_irrefl hnd a (hbefore a a ha)
  · intro a ha
    exact before_irrefl hnd a (htrans a a ha)

/-- Witness for C10 at the concrete example document. -/
theorem c10_dependency_graph_acyclic_witness :
    (exampleDocC4.all_tasks.map Task.id).Nodup ∧
      ∀ a, ¬ edgeMem (build_dependency_graph exampleDocC4) a a :=
  ⟨by decide, (c10_dependency_graph_acyclic exampleDocC4 (by decide)).2.1⟩

/-- C3 (divergence witness): on the repository's own regression input
`## Phase 3.1: Foundation`, the parser produces NO phase at all — the phase
regex `(\d+)` rejects the decimal token (and matched numbers are stored
through `int(...)` as `Int`, not verbatim strings), so the document parses to
a bare title with zero phases and zero tasks, where the claim and the
repository's test demand one phase with `number = "3.1"`. -/
theorem c3_decimal_phase_number_rejected :
    parse_tasks_md decimalPhaseContent =
      { title := "Parser Coverage", input_path := none, branch := none, phases := [] } := by
  rfl

lemma taskBranch_inert (st : PState) (s : List Char) (h : taskMatchCs s = none) :
    taskBranch st s = st := by
  unfold taskBranch
  simp [h]

lemma metaBranch_inert (st : PState) (s : List Char)
    (h1 : metaMatchCs "**Purpose**".data s = none)
    (h2 : metaMatchCs "**Goal**".data s = none)
    (h3 : metaMatchCs "**Checkpoint**".data s = none)
    (h4 : metaMatchCs "**Independent Test**".data s = none)
    (h5 : taskMatchCs s = none) : metaBranch st s = st := by
  unfold metaBranch
  rcases hcp : st.cur_phase with _ | p <;> rcases hcg : st.cur_group with _ | g <;>
    simp [h1, h2, h3, h4, taskBranch_inert st s h5]

lemma parseLine_inert (st : PState) (raw : List Char) (h : inertLine raw = true) :
    parseLine st raw = st := by
  unfold inertLine at h
  by_cases hse : (stripCs raw).isEmpty
  · unfold parseLine
    simp [hse]
  · by_cases hfmt : ("##".data.isPrefixOf (stripCs raw) &&
        hasSubCs "Format:".data (stripCs raw)) = true
    · unfold parseLine
      simp only [hse, Bool.false_eq_true, if_false, hfmt, if_true]
    · have hsef : (stripCs raw).isEmpty = false := by
        cases hx : (stripCs raw).isEmpty
        · rfl
        · exact absurd hx hse
      have hfmtf : ("##".data.isPrefixOf (stripCs raw) &&
          hasSubCs "Format:".data (stripCs raw)) = false := by
        cases hx : ("##".data.isPrefixOf (stripCs raw) &&
            hasSubCs "Format:".data (stripCs raw))
        · rfl
        · exact absurd hx hfmt
      have h3 : ((titleMatchCs (stripCs raw)).isNone &&
          (inputMatchCs (stripCs raw)).isNone && (branchMatchCs (stripCs raw)).isNone &&
          (phaseMatchCs (stripCs raw)).isNone && !("### ".data.isPrefixOf (stripCs raw)) &&
          (metaMatchCs "**Purpose**".data (stripCs raw)).isNone &&
          (metaMatchCs "**Goal**".data (stripCs raw)).isNone &&
          (metaMatchCs "**Checkpoint**".data (stripCs raw)).isNone &&
          (metaMatchCs "**Independent Test**".data (stripCs raw)).isNone &&
          (taskMatchCs (stripCs raw)).isNone) = true := by
        rcases Bool.or_eq_true_iff.mp h with h12 | hrest
        · rcases Bool.or_eq_true_iff.mp h12 with h1 | h2
          · exact absurd h1 hse
          · exact absurd h2 hfmt
        · exact hrest
      obtain ⟨h9, htk⟩ := Bool.and_eq_true_iff.mp h3
      obtain ⟨h8, hit⟩ := Bool.and_eq_true_iff.mp h9
      obtain ⟨h7, hck⟩ := Bool.and_eq_true_iff.mp h8
      obtain ⟨h6, hgo⟩ := Bool.and_eq_true_iff.mp h7
      obtain ⟨h5, hpu⟩ := Bool.and_eq_true_iff.mp h6
      obtain ⟨h4, hgp⟩ := Bool.and_eq_true_iff.mp h5
      obtain ⟨h3b, hph⟩ := Bool.and_eq_true_iff.mp h4
      obtain ⟨h2b, hbr⟩ := Bool.and_eq_true_iff.mp h3b
      obtain ⟨ht, hin⟩ := Bool.and_eq_true_iff.mp h2b
      have ht2 := Option.isNone_iff_eq_none.mp ht
      have hin2 := Option.isNone_iff_eq_none.mp hin
      have hbr2 := Option.isNone_iff_eq_none.mp hbr
      have hph2 := Option.isNone_iff_eq_none.mp hph
      have hpu2 := Option.isNone_iff_eq_none.mp hpu
      have hgo2 := Option.isNone_iff_eq_none.mp hgo
      have hck2 := Option.isNone_iff_eq_none.mp hck
      have hit2 := Option.isNone_iff_eq_none.mp hit
      have htk2 := Option.isNone_iff_eq_none.mp htk
      have hgp2 : ("### ".data.isPrefixOf (stripCs raw)) = false := by
        cases hx : ("### ".data.isPrefixOf (stripCs raw))
        · rfl
        · rw [hx] at hgp
          simp at hgp
      unfold parseLine
      simp only [hsef, Bool.false_eq_true, if_false, hfmtf, ht2, hin2, hbr2, hph2,
        hgp2, Bool.false_and, if_false]
      exact metaBranch_inert st (stripCs raw) hpu2 hgo2 hck2 hit2 htk2

/-- C9: the parser is total by construction (`parse_tasks_md` is a function
on all of `String`), and a line recognized by no line shape is silently
skipped: inserting such a line anywhere in the input leaves the parsed
document unchanged. -/
theorem c9_parser_total_and_skips_unrecognized :
    (∀ (pre suf : List (List Char)) (junk : List Char), inertLine junk = true →
        parseLinesCs (pre ++ junk :: suf) = parseLinesCs (pre ++ suf)) ∧
      ∀ content : String, parse_tasks_md content = parseLinesCs (splitLinesCs content.data) := by
  constructor
  · intro pre suf junk hj
    unfold parseLinesCs
    rw [List.foldl_append, List.foldl_append, List.foldl_cons, parseLine_inert _ junk hj]
  · intro content
    rfl

lemma find_sound (t : String) (p : Option String) (i : RIssue) :
    ∀ (l : List RIssue), findExisting l t p = some i → i.title = t ∧ i.parent = p ∧ i ∈ l := by
  intro l
  induction l with
  | nil =>
    intro h
    simp [findExisting] at h
  | cons j rest ih =>
    intro h
    simp only [findExisting] at h
    by_cases hm : j.title = t ∧ j.parent = p
    · rw [if_pos hm] at h
      cases h
      exact ⟨hm.1, hm.2, List.mem_cons_self _ _⟩
    · rw [if_neg hm] at h
      obtain ⟨h1, h2, h3⟩ := ih h
      exact ⟨h1, h2, List.mem_cons_of_mem _ h3⟩

lemma find_setBody (iid b : String) (t : String) (p : Option String) :
    ∀ (l : List RIssue), findExisting (setBody l iid b) t p =
      (findExisting l t p).map (fun i => if i.id = iid then { i with body := b } else i) := by
  intro l
  induction l with
  | nil => rfl
  | cons j rest ih =>
    have hcons : setBody (j :: rest) iid b =
        (if j.id = iid then { j with body := b } else j) :: setBody rest iid b := by
      simp [setBody]
    rw [hcons]
    by_cases hm : j.title = t ∧ j.parent = p
    · have hm2 : ((if j.id = iid then { j with body := b } else j) : RIssue).title = t ∧
          ((if j.id = iid then { j with body := b } else j) : RIssue).parent = p := by
        by_cases hid : j.id = iid <;> simp [hid, hm.1, hm.2]
      simp only [findExisting]
      rw [if_pos hm2, if_pos hm]
      rfl
    · have hm2 : ¬ (((if j.id = iid then { j with body := b } else j) : RIssue).title = t ∧
          ((if j.id = iid then { j with body := b } else j) : RIssue).parent = p) := by
        by_cases hid : j.id = iid <;> simpa [hid] using hm
      simp only [findExisting]
      rw [if_neg hm2, if_neg hm]
      exact ih

lemma find_append_left (B : List RIssue) (t : String) (p : Option String) (i : RIssue) :
    ∀ (A : List RIssue), findExisting A t p = some i → findExisting (A ++ B) t p = some i := by
  intro A
  induction A with
  | nil =>
    intro h
    simp [findExisting] at h
  | cons j rest ih =>
    intro h
    simp only [findExisting] at h
    rw [List.cons_append]
    simp only [findExisting]
    by_cases hm : j.title = t ∧ j.parent = p
    · rw [if_pos hm] at h ⊢
      exact h
    · rw [if_neg hm] at h ⊢
      exact ih h

lemma find_append_none (B : List RIssue) (t : String) (p : Option String) :
    ∀ (A : List RIssue), findExisting A t p = none →
      findExisting (A ++ B) t p = findExisting B t p := by
  intro A
  induction A with
  | nil =>
    intro h
    simp
  | cons j rest ih =>
    intro h
    simp only [findExisting] at h
    rw [List.cons_append]
    simp only [findExisting]
    by_cases hm : j.title = t ∧ j.parent = p
    · rw [if_pos hm] at h
      cases h
    · rw [if_neg hm] at h
      rw [if_neg hm]
      exact ih h

lemma skel_setBody (l : List RIssue) (iid b : String) :
    issuesSkel (setBody l iid b) = issuesSkel l := by
  induction l with
  | nil => rfl
  | cons j rest ih =>
    by_cases hid : j.id = iid <;> simp_all [setBody, issuesSkel]

lemma find_id_of_skel : ∀ (A B : List RIssue), issuesSkel A = issuesSkel B →
    ∀ (t : String) (p : Option String),
      (findExisting A t p).map (fun i => i.id) = (findExisting B t p).map (fun i => i.id) := by
  intro A
  induction A with
  | nil =>
    intro B h t p
    cases B with
    | nil => rfl
    | cons b rest => simp [issuesSkel] at h
  | cons a restA ih =>
    intro B h t p
    cases B with
    | nil => simp [issuesSkel] at h
    | cons b restB =>
      simp only [issuesSkel, List.map_cons, List.cons.injEq, Prod.mk.injEq] at h
      obtain ⟨⟨hid, hnum, htit, hpar⟩, hrest⟩ := h
      unfold findExisting
      by_cases hm : a.title = t ∧ a.parent = p
      · have hm2 : b.title = t ∧ b.parent = p := by
          constructor
          · rw [← htit]; exact hm.1
          · rw [← hpar]; exact hm.2
        rw [if_pos hm, if_pos hm2]
        simpa using hid
      · have hm2 : ¬ (b.title = t ∧ b.parent = p) := by
          rw [← htit, ← hpar]
          exact hm
        rw [if_neg hm, if_neg hm2]
        exact ih restB hrest t p

lemma step_found (st : HState) (t b : String) (p : Option String) :
    findExisting (createIssueStep st t b p).1.issues t p = some (createIssueStep st t b p).2 ∧
      (createIssueStep st t b p).2.id ∈ (createIssueStep st t b p).1.projIds := by
  unfold createIssueStep
  cases hfind : findExisting st.issues t p with
  | some ex =>
    simp only
    by_cases hbody : b = ex.body
    · simp only [if_pos hbody]
      by_cases hproj : ex.id ∈ st.projIds
      · simp [if_pos hproj, hfind, hproj]
      · simp [if_neg hproj, hfind]
    · simp only [if_neg hbody]
      by_cases hproj : ({ ex with body := b } : RIssue).id ∈ st.projIds
      · rw [if_pos hproj]
        refine ⟨?_, hproj⟩
        rw [find_setBody, hfind]
        simp
      · rw [if_neg hproj]
        constructor
        · rw [find_setBody, hfind]
          simp
        · simp
  | none =>
    simp only
    constructor
    · rw [find_append_none _ _ _ _ hfind]
      simp [findExisting]
    · simp

lemma step_stable (st : HState) (t b : String) (p : Option String)
    (t0 : String) (p0 : Option String) (i0 : RIssue)
    (h : findExisting st.issues t0 p0 = some i0) :
    ∃ i1, findExisting (createIssueStep st t b p).1.issues t0 p0 = some i1 ∧ i1.id = i0.id := by
  unfold createIssueStep
  cases hfind : findExisting st.issues t p with
  | some ex =>
    simp only
    by_cases hbody : b = ex.body
    · simp only [if_pos hbody]
      by_cases hproj : ex.id ∈ st.projIds
      · exact ⟨i0, by simp [if_pos hproj, h], rfl⟩
      · exact ⟨i0, by simp [if_neg hproj, h], rfl⟩
    · simp only [if_neg hbody]
      by_cases hproj : ({ ex with body := b } : RIssue).id ∈ st.projIds
      · rw [if_pos hproj]
        refine ⟨if i0.id = ex.id then { i0 with body := b } else i0, ?_, ?_⟩
        · rw [find_setBody, h]
          rfl
        · by_cases hid : i0.id = ex.id <;> simp [hid]
      · rw [if_neg hproj]
        refine ⟨if i0.id = ex.id then { i0 with body := b } else i0, ?_, ?_⟩
        · rw [find_setBody, h]
          rfl
        · by_cases hid : i0.id = ex.id <;> simp [hid]
  | none =>
    simp only
    exact ⟨i0, find_append_left _ _ _ _ _ h, rfl⟩

lemma step_proj_mono (st : HState) (t b : String) (p : Option String) (x : String)
    (h : x ∈ st.projIds) : x ∈ (createIssueStep st t b p).1.projIds := by
  unfold createIssueStep
  cases hfind : findExisting st.issues t p with
  | some ex =>
    simp only
    by_cases hbody : b = ex.body
    · simp only [if_pos hbody]
      by_cases hproj : ex.id ∈ st.projIds
      · simpa [if_pos hproj] using h
      · simp [if_neg hproj, h]
    · simp only [if_neg hbody]
      by_cases hproj : ({ ex with body := b } : RIssue).id ∈ st.projIds
      · simpa [if_pos hproj] using h
      · simp [if_neg hproj, h]
  | none =>
    simp [h]

lemma step_found_noop (st : HState) (t b : String) (p : Option String) (j : RIssue)
    (hfind : findExisting st.issues t p = some j) (hproj : j.id ∈ st.projIds) :
    (createIssueStep st t b p).1.creates = st.creates ∧
      (createIssueStep st t b p).1.adds = st.adds ∧
      (createIssueStep st t b p).1.projIds = st.projIds ∧
      issuesSkel (createIssueStep st t b p).1.issues = issuesSkel st.issues ∧
      (createIssueStep st t b p).2.id = j.id := by
  unfold createIssueStep
  rw [hfind]
  simp only
  by_cases hbody : b = j.body
  · simp [if_pos hbody, hproj]
  · have hproj2 : ({ j with body := b } : RIssue).id ∈ st.projIds := by simpa using hproj
    simp [if_neg hbody, hproj2, skel_setBody]

lemma runScript_stable (L : List HEnt) :
    ∀ (st : HState) (env : List (HKey × RIssue)) (t0 : String) (p0 : Option String) (i0 : RIssue),
      findExisting st.issues t0 p0 = some i0 →
      ∃ i1, findExisting (runScript L st env).1.issues t0 p0 = some i1 ∧ i1.id = i0.id := by
  induction L with
  | nil =>
    intro st env t0 p0 i0 h
    exact ⟨i0, h, rfl⟩
  | cons e rest ih =>
    intro st env t0 p0 i0 h
    obtain ⟨i1, h1, hid1⟩ := step_stable st e.title e.body
      (match e.parentKey with
        | none => none
        | some k => (envLookup env k).map (fun i => i.id)) t0 p0 i0 h
    obtain ⟨i2, h2, hid2⟩ := ih _ _ t0 p0 i1 h1
    exact ⟨i2, h2, hid2.trans hid1⟩

lemma runScript_proj_mono (L : List HEnt) :
    ∀ (st : HState) (env : List (HKey × RIssue)) (x : String),
      x ∈ st.projIds → x ∈ (runScript L st env).1.projIds := by
  induction L with
  | nil =>
    intro st env x h
    exact h
  | cons e rest ih =>
    intro st env x h
    exact ih _ _ x (step_proj_mono st e.title e.body _ x h)

lemma envRel_refl : ∀ (e : List (HKey × RIssue)), envRel e e := by
  intro e
  induction e with
  | nil => trivial
  | cons kv rest ih => exact ⟨rfl, rfl, ih⟩

lemma envRel_lookup : ∀ (e1 e2 : List (HKey × RIssue)), envRel e1 e2 → ∀ (k : HKey),
    (envLookup e1 k).map (fun i => i.id) = (envLookup e2 k).map (fun i => i.id) := by
  intro e1
  induction e1 with
  | nil =>
    intro e2 h k
    cases e2 with
    | nil => rfl
    | cons kv rest => exact absurd h (by simp [envRel])
  | cons kv1 rest1 ih =>
    intro e2 h k
    cases e2 with
    | nil => exact absurd h (by simp [envRel])
    | cons kv2 rest2 =>
      obtain ⟨k1, i1⟩ := kv1
      obtain ⟨k2, i2⟩ := kv2
      obtain ⟨hk, hid, hrest⟩ := h
      subst hk
      simp only [envLookup]
      by_cases hkk : k1 = k
      · rw [if_pos hkk, if_pos hkk]
        simpa using hid
      · rw [if_neg hkk, if_neg hkk]
        exact ih rest2 hrest k

lemma envRel_insert : ∀ (e1 e2 : List (HKey × RIssue)), envRel e1 e2 →
    ∀ (k : HKey) (i1 i2 : RIssue), i1.id = i2.id →
      envRel (envInsert e1 k i1) (envInsert e2 k i2) := by
  intro e1
  induction e1 with
  | nil =>
    intro e2 h k i1 i2 hid
    cases e2 with
    | nil => exact ⟨rfl, hid, trivial⟩
    | cons kv rest => exact absurd h (by simp [envRel])
  | cons kv1 rest1 ih =>
    intro e2 h k i1 i2 hid
    cases e2 with
    | nil => exact absurd h (by simp [envRel])
    | cons kv2 rest2 =>
      obtain ⟨k1, j1⟩ := kv1
      obtain ⟨k2, j2⟩ := kv2
      obtain ⟨hk, hjd, hrest⟩ := h
      subst hk
      simp only [envInsert]
      by_cases hkk : k1 = k
      · rw [if_pos hkk, if_pos hkk]
        exact ⟨rfl, hid, hrest⟩
      · rw [if_neg hkk, if_neg hkk]
        exact ⟨rfl, hjd, ih rest2 hrest k i1 i2 hid⟩

lemma replay (L : List HEnt) : ∀ (τ σ : HState) (ρτ ρσ : List (HKey × RIssue)),
    envRel ρτ ρσ →
    issuesSkel σ.issues = issuesSkel (runScript L τ ρτ).1.issues →
    σ.projIds = (runScript L τ ρτ).1.projIds →
    (runScript L σ ρσ).1.creates = σ.creates ∧
      (runScript L σ ρσ).1.adds = σ.adds ∧
      (runScript L σ ρσ).1.projIds = σ.projIds ∧
      issuesSkel (runScript L σ ρσ).1.issues = issuesSkel σ.issues ∧
      envRel (runScript L τ ρτ).2 (runScript L σ ρσ).2 := by
  induction L with
  | nil =>
    intro τ σ ρτ ρσ henv hskel hproj
    exact ⟨rfl, rfl, rfl, rfl, henv⟩
  | cons e rest ih =>
    intro τ σ ρτ ρσ henv hskel hproj
    have hpid : ((match e.parentKey with
        | none => none
        | some k => (envLookup ρσ k).map (fun i => i.id)) : Option String) =
      ((match e.parentKey with
        | none => none
        | some k => (envLookup ρτ k).map (fun i => i.id)) : Option String) := by
      cases e.parentKey with
      | none => rfl
      | some k => exact (envRel_lookup ρτ ρσ henv k).symm
    set pid := ((match e.parentKey with
      | none => none
      | some k => (envLookup ρτ k).map (fun i => i.id)) : Option String) with hpiddef
    have hrunτ : runScript (e :: rest) τ ρτ =
        runScript rest (createIssueStep τ e.title e.body pid).1
          (envInsert ρτ e.key (createIssueStep τ e.title e.body pid).2) := by
      rw [runScript]
    have hrunσ : runScript (e :: rest) σ ρσ =
        runScript rest (createIssueStep σ e.title e.body pid).1
          (envInsert ρσ e.key (createIssueStep σ e.title e.body pid).2) := by
      rw [runScript, hpid]
    obtain ⟨hfind1, hproj1⟩ := step_found τ e.title e.body pid
    obtain ⟨ifin, hfin, hfinid⟩ := runScript_stable rest _ _ e.title pid _ hfind1
    have hfinproj : (createIssueStep τ e.title e.body pid).2.id ∈
        (runScript rest (createIssueStep τ e.title e.body pid).1
          (envInsert ρτ e.key (createIssueStep τ e.title e.body pid).2)).1.projIds :=
      runScript_proj_mono rest _ _ _ hproj1
    rw [hrunτ] at hskel hproj
    have hmapid := find_id_of_skel _ _ hskel e.title pid
    rw [hfin] at hmapid
    have hjσ : ∃ jσ, findExisting σ.issues e.title pid = some jσ ∧
        jσ.id = (createIssueStep τ e.title e.body pid).2.id := by
      cases hx : findExisting σ.issues e.title pid with
      | none => rw [hx] at hmapid; simp at hmapid
      | some j =>
        rw [hx] at hmapid
        simp at hmapid
        exact ⟨j, rfl, by rw [hmapid, hfinid]⟩
    obtain ⟨jσ, hjfind, hjid⟩ := hjσ
    have hjproj : jσ.id ∈ σ.projIds := by
      rw [hjid, hproj]
      exact hfinproj
    obtain ⟨hc, ha, hp, hs, hretid⟩ := step_found_noop σ e.title e.body pid jσ hjfind hjproj
    have hidseq : (createIssueStep τ e.title e.body pid).2.id =
        (createIssueStep σ e.title e.body pid).2.id := by
      rw [hretid, hjid]
    obtain ⟨ihc, iha, ihp, ihs, ihenv⟩ := ih (createIssueStep τ e.title e.body pid).1
      (createIssueStep σ e.title e.body pid).1
      (envInsert ρτ e.key (createIssueStep τ e.title e.body pid).2)
      (envInsert ρσ e.key (createIssueStep σ e.title e.body pid).2)
      (envRel_insert ρτ ρσ henv e.key _ _ hidseq)
      (by rw [hs, hskel])
      (by rw [hp, hproj])
    rw [hrunσ, hrunτ]
    exact ⟨by rw [ihc, hc], by rw [iha, ha], by rw [ihp, hp], by rw [ihs, hs], ihenv⟩

lemma runScript_append (L1 L2 : List HEnt) :
    ∀ (st : HState) (env : List (HKey × RIssue)),
      runScript (L1 ++ L2) st env =
        runScript L2 (runScript L1 st env).1 (runScript L1 st env).2 := by
  induction L1 with
  | nil =>
    intro st env
    rfl
  | cons e rest ih =>
    intro st env
    rw [List.cons_append, runScript, runScript]
    exact ih _ _

lemma envLookup_insert_eq (env : List (HKey × RIssue)) (k : HKey) (v : RIssue) :
    envLookup (envInsert env k v) k = some v := by
  induction env with
  | nil => simp [envInsert, envLookup]
  | cons kv rest ih =>
    obtain ⟨k0, v0⟩ := kv
    by_cases hk : k0 = k
    · simp [envInsert, envLookup, hk]
    · simp [envInsert, envLookup, hk, ih]

lemma envLookup_insert_ne (env : List (HKey × RIssue)) (k k2 : HKey) (v : RIssue)
    (h : k2 ≠ k) : envLookup (envInsert env k2 v) k = envLookup env k := by
  induction env with
  | nil => simp [envInsert, envLookup, h]
  | cons kv rest ih =>
    obtain ⟨k0, v0⟩ := kv
    by_cases hk : k0 = k2
    · subst hk
      simp [envInsert, envLookup, h]
    · by_cases hk2 : k0 = k
      · subst hk2
        simp [envInsert, envLookup, hk, Ne.symm h]
      · simp [envInsert, envLookup, hk, hk2, ih]

lemma phasePartE_insert_phase (env : List (HKey × RIssue)) (n : Int) (i : RIssue) :
    phasePartE (envInsert env (HKey.phase n) i) = mapInsertP (phasePartE env) n i := by
  induction env with
  | nil => rfl
  | cons kv rest ih =>
    obtain ⟨k0, v0⟩ := kv
    by_cases hk : k0 = HKey.phase n
    · subst hk
      simp [envInsert, phasePartE, mapInsertP]
    · cases k0 with
      | phase m =>
        have hm : ¬ m = n := by
          intro hmn
          exact hk (by rw [hmn])
        simpa [envInsert, phasePartE, hk, mapInsertP, hm] using ih
      | group s => simpa [envInsert, phasePartE, hk] using ih
      | task s => simpa [envInsert, phasePartE, hk] using ih

lemma phasePartE_insert_group (env : List (HKey × RIssue)) (s : String) (i : RIssue) :
    phasePartE (envInsert env (HKey.group s) i) = phasePartE env := by
  induction env with
  | nil => rfl
  | cons kv rest ih =>
    obtain ⟨k0, v0⟩ := kv
    by_cases hk : k0 = HKey.group s
    · subst hk
      simp [envInsert, phasePartE]
    · cases k0 <;> simpa [envInsert, phasePartE, hk] using ih

lemma phasePartE_insert_task (env : List (HKey × RIssue)) (s : String) (i : RIssue) :
    phasePartE (envInsert env (HKey.task s) i) = phasePartE env := by
  induction env with
  | nil => rfl
  | cons kv rest ih =>
    obtain ⟨k0, v0⟩ := kv
    by_cases hk : k0 = HKey.task s
    · subst hk
      simp [envInsert, phasePartE]
    · cases k0 <;> simpa [envInsert, phasePartE, hk] using ih

lemma groupPartE_insert_group (env : List (HKey × RIssue)) (s : String) (i : RIssue) :
    groupPartE (envInsert env (HKey.group s) i) = mapInsertP (groupPartE env) s i := by
  induction env with
  | nil => rfl
  | cons kv rest ih =>
    obtain ⟨k0, v0⟩ := kv
    by_cases hk : k0 = HKey.group s
    · subst hk
      simp [envInsert, groupPartE, mapInsertP]
    · cases k0 with
      | group m =>
        have hm : ¬ m = s := by
          intro hmn
          exact hk (by rw [hmn])
        simpa [envInsert, groupPartE, hk, mapInsertP, hm] using ih
      | phase m => simpa [envInsert, groupPartE, hk] using ih
      | task m => simpa [envInsert, groupPartE, hk] using ih

lemma groupPartE_insert_phase (env : List (HKey × RIssue)) (n : Int) (i : RIssue) :
    groupPartE (envInsert env (HKey.phase n) i) = groupPartE env := by
  induction env with
  | nil => rfl
  | cons kv rest ih =>
    obtain ⟨k0, v0⟩ := kv
    by_cases hk : k0 = HKey.phase n
    · subst hk
      simp [envInsert, groupPartE]
    · cases k0 <;> simpa [envInsert, groupPartE, hk] using ih

lemma groupPartE_insert_task (env : List (HKey × RIssue)) (s : String) (i : RIssue) :
    groupPartE (envInsert env (HKey.task s) i) = groupPartE env := by
  induction env with
  | nil => rfl
  | cons kv rest ih =>
    obtain ⟨k0, v0⟩ := kv
    by_cases hk : k0 = HKey.task s
    · subst hk
      simp [envInsert, groupPartE]
    · cases k0 <;> simpa [envInsert, groupPartE, hk] using ih

lemma taskPartE_insert_task (env : List (HKey × RIssue)) (s : String) (i : RIssue) :
    taskPartE (envInsert env (HKey.task s) i) = mapInsertP (taskPartE env) s i := by
  induction env with
  | nil => rfl
  | cons kv rest ih =>
    obtain ⟨k0, v0⟩ := kv
    by_cases hk : k0 = HKey.task s
    · subst hk
      simp [envInsert, taskPartE, mapInsertP]
    · cases k0 with
      | task m =>
        have hm : ¬ m = s := by
          intro hmn
          exact hk (by rw [hmn])
        simpa [envInsert, taskPartE, hk, mapInsertP, hm] using ih
      | phase m => simpa [envInsert, taskPartE, hk] using ih
      | group m => simpa [envInsert, taskPartE, hk] using ih

lemma taskPartE_insert_phase (env : List (HKey × RIssue)) (n : Int) (i : RIssue) :
    taskPartE (envInsert env (HKey.phase n) i) = taskPartE env := by
  induction env with
  | nil => rfl
  | cons kv rest ih =>
    obtain ⟨k0, v0⟩ := kv
    by_cases hk : k0 = HKey.phase n
    · subst hk
      simp [envInsert, taskPartE]
    · cases k0 <;> simpa [envInsert, taskPartE, hk] using ih

lemma taskPartE_insert_group (env : List (HKey × RIssue)) (s : String) (i : RIssue) :
    taskPartE (envInsert env (HKey.group s) i) = taskPartE env := by
  induction env with
  | nil => rfl
  | cons kv rest ih =>
    obtain ⟨k0, v0⟩ := kv
    by_cases hk : k0 = HKey.group s
    · subst hk
      simp [envInsert, taskPartE]
    · cases k0 <;> simpa [envInsert, taskPartE, hk] using ih

lemma tasks_seg (parentK : HKey) (pid : String) (ts : List Task)
    (hpk : ∀ tid, parentK ≠ HKey.task tid) :
    ∀ (st : HState) (env : List (HKey × RIssue)) (tm : List (String × RIssue)),
      (envLookup env parentK).map (fun i => i.id) = some pid →
      tm = taskPartE env →
      (runScript (ts.map (taskEnt parentK)) st env).1 = (ts.foldl (taskStepH pid) (st, tm)).1 ∧
      taskPartE (runScript (ts.map (taskEnt parentK)) st env).2 =
        (ts.foldl (taskStepH pid) (st, tm)).2 ∧
      phasePartE (runScript (ts.map (taskEnt parentK)) st env).2 = phasePartE env ∧
      groupPartE (runScript (ts.map (taskEnt parentK)) st env).2 = groupPartE env ∧
      ∀ k2, (∀ tid, k2 ≠ HKey.task tid) →
        envLookup (runScript (ts.map (taskEnt parentK)) st env).2 k2 = envLookup env k2 := by
  induction ts with
  | nil =>
    intro st env tm hlk htm
    exact ⟨rfl, htm.symm, rfl, rfl, fun _ _ => rfl⟩
  | cons t ts2 ih =>
    intro st env tm hlk htm
    have hstep : runScript ((t :: ts2).map (taskEnt parentK)) st env =
        runScript (ts2.map (taskEnt parentK))
          (createIssueStep st (taskTitle t) (taskBody t) (some pid)).1
          (envInsert env (HKey.task t.id)
            (createIssueStep st (taskTitle t) (taskBody t) (some pid)).2) := by
      simp only [List.map_cons, runScript, taskEnt, hlk]
    have hfold : (t :: ts2).foldl (taskStepH pid) (st, tm) =
        ts2.foldl (taskStepH pid)
          ((createIssueStep st (taskTitle t) (taskBody t) (some pid)).1,
            mapInsertP tm t.id (createIssueStep st (taskTitle t) (taskBody t) (some pid)).2) := by
      simp only [List.foldl_cons, taskStepH]
    have hlk1 : (envLookup (envInsert env (HKey.task t.id)
          (createIssueStep st (taskTitle t) (taskBody t) (some pid)).2) parentK).map
            (fun i => i.id) = some pid := by
      rw [envLookup_insert_ne env parentK (HKey.task t.id) _ (Ne.symm (hpk t.id))]
      exact hlk
    have htm1 : mapInsertP tm t.id (createIssueStep st (taskTitle t) (taskBody t) (some pid)).2 =
        taskPartE (envInsert env (HKey.task t.id)
          (createIssueStep st (taskTitle t) (taskBody t) (some pid)).2) := by
      rw [taskPartE_insert_task, ← htm]
    obtain ⟨h1, h2, h3, h4, h5⟩ := ih _ _ _ hlk1 htm1
    refine ⟨?_, ?_, ?_, ?_, ?_⟩
    · rw [hstep, hfold]
      exact h1
    · rw [hstep, hfold]
      exact h2
    · rw [hstep, h3, phasePartE_insert_task]
    · rw [hstep, h4, groupPartE_insert_task]
    · intro k2 hk2
      rw [hstep, h5 k2 hk2,
        envLookup_insert_ne env k2 (HKey.task t.id) _ (Ne.symm (hk2 t.id))]

lemma groups_seg (doc : TasksDocument) (p : Phase) (pid : String) (gs : List StoryGroup) :
    ∀ (st : HState) (env : List (HKey × RIssue)) (gm tm : List (String × RIssue)),
      (envLookup env (HKey.phase p.number)).map (fun i => i.id) = some pid →
      gm = groupPartE env →
      tm = taskPartE env →
      (runScript ((gs.map (groupEnts doc p)).flatten) st env).1 =
        (gs.foldl (groupStepH doc p pid) (st, gm, tm)).1 ∧
      groupPartE (runScript ((gs.map (groupEnts doc p)).flatten) st env).2 =
        (gs.foldl (groupStepH doc p pid) (st, gm, tm)).2.1 ∧
      taskPartE (runScript ((gs.map (groupEnts doc p)).flatten) st env).2 =
        (gs.foldl (groupStepH doc p pid) (st, gm, tm)).2.2 ∧
      phasePartE (runScript ((gs.map (groupEnts doc p)).flatten) st env).2 = phasePartE env ∧
      ∀ n, envLookup (runScript ((gs.map (groupEnts doc p)).flatten) st env).2 (HKey.phase n) =
        envLookup env (HKey.phase n) := by
  induction gs with
  | nil =>
    intro st env gm tm hlk hgm htm
    exact ⟨rfl, hgm.symm, htm.symm, rfl, fun _ => rfl⟩
  | cons g gs2 ih =>
    intro st env gm tm hlk hgm htm
    have hgases : ∀ tid, HKey.group (groupKeyStr p g) ≠ HKey.task tid := by
      intro tid h
      exact HKey.noConfusion h
    have hstep : runScript (((g :: gs2).map (groupEnts doc p)).flatten) st env =
        runScript ((gs2.map (groupEnts doc p)).flatten)
          (runScript ((groupTasksOf doc p g).map (taskEnt (HKey.group (groupKeyStr p g))))
            (createIssueStep st g.title (groupBody doc p g) (some pid)).1
            (envInsert env (HKey.group (groupKeyStr p g))
              (createIssueStep st g.title (groupBody doc p g) (some pid)).2)).1
          (runScript ((groupTasksOf doc p g).map (taskEnt (HKey.group (groupKeyStr p g))))
            (createIssueStep st g.title (groupBody doc p g) (some pid)).1
            (envInsert env (HKey.group (groupKeyStr p g))
              (createIssueStep st g.title (groupBody doc p g) (some pid)).2)).2 := by
      simp only [List.map_cons, List.flatten_cons, groupEnts, List.cons_append, runScript,
        hlk, List.append_eq, runScript_append]
    have hlkg : (envLookup (envInsert env (HKey.group (groupKeyStr p g))
          (createIssueStep st g.title (groupBody doc p g) (some pid)).2)
            (HKey.group (groupKeyStr p g))).map (fun i => i.id) =
        some (createIssueStep st g.title (groupBody doc p g) (some pid)).2.id := by
      rw [envLookup_insert_eq]
      rfl
    have htmg : tm = taskPartE (envInsert env (HKey.group (groupKeyStr p g))
        (createIssueStep st g.title (groupBody doc p g) (some pid)).2) := by
      rw [taskPartE_insert_group]
      exact htm
    obtain ⟨t1, t2, t3, t4, t5⟩ := tasks_seg (HKey.group (groupKeyStr p g))
      (createIssueStep st g.title (groupBody doc p g) (some pid)).2.id
      (groupTasksOf doc p g) hgases
      (createIssueStep st g.title (groupBody doc p g) (some pid)).1
      (envInsert env (HKey.group (groupKeyStr p g))
        (createIssueStep st g.title (groupBody doc p g) (some pid)).2)
      tm hlkg htmg
    have hlk2 : (envLookup (runScript ((groupTasksOf doc p g).map
          (taskEnt (HKey.group (groupKeyStr p g))))
          (createIssueStep st g.title (groupBody doc p g) (some pid)).1
          (envInsert env (HKey.group (groupKeyStr p g))
            (createIssueStep st g.title (groupBody doc p g) (some pid)).2)).2
          (HKey.phase p.number)).map (fun i => i.id) = some pid := by
      rw [t5 (HKey.phase p.number) (fun tid h => HKey.noConfusion h),
        envLookup_insert_ne env (HKey.phase p.number) (HKey.group (groupKeyStr p g)) _
          (fun h => HKey.noConfusion h)]
      exact hlk
    have hgm2 : mapInsertP gm (groupKeyStr p g)
        (createIssueStep st g.title (groupBody doc p g) (some pid)).2 =
        groupPartE (runScript ((groupTasksOf doc p g).map
          (taskEnt (HKey.group (groupKeyStr p g))))
          (createIssueStep st g.title (groupBody doc p g) (some pid)).1
          (envInsert env (HKey.group (groupKeyStr p g))
            (createIssueStep st g.title (groupBody doc p g) (some pid)).2)).2 := by
      rw [t4, groupPartE_insert_group, ← hgm]
    have htm2 : ((groupTasksOf doc p g).foldl (taskStepH
        (createIssueStep st g.title (groupBody doc p g) (some pid)).2.id)
        ((createIssueStep st g.title (groupBody doc p g) (some pid)).1, tm)).2 =
        taskPartE (runScript ((groupTasksOf doc p g).map
          (taskEnt (HKey.group (groupKeyStr p g))))
          (createIssueStep st g.title (groupBody doc p g) (some pid)).1
          (envInsert env (HKey.group (groupKeyStr p g))
            (createIssueStep st g.title (groupBody doc p g) (some pid)).2)).2 := by
      rw [t2]
    obtain ⟨h1, h2, h3, h4, h5⟩ := ih _ _ _ _ hlk2 hgm2 htm2
    have hfold : (g :: gs2).foldl (groupStepH doc p pid) (st, gm, tm) =
        gs2.foldl (groupStepH doc p pid)
          (((groupTasksOf doc p g).foldl (taskStepH
              (createIssueStep st g.title (groupBody doc p g) (some pid)).2.id)
              ((createIssueStep st g.title (groupBody doc p g) (some pid)).1, tm)).1,
            mapInsertP gm (groupKeyStr p g)
              (createIssueStep st g.title (groupBody doc p g) (some pid)).2,
            ((groupTasksOf doc p g).foldl (taskStepH
              (createIssueStep st g.title (groupBody doc p g) (some pid)).2.id)
              ((createIssueStep st g.title (groupBody doc p g) (some pid)).1, tm)).2) := by
      simp only [List.foldl_cons, groupStepH]
    refine ⟨?_, ?_, ?_, ?_, ?_⟩
    · rw [hstep, hfold, t1]
      exact h1
    · rw [hstep, hfold, t1]
      exact h2
    · rw [hstep, hfold, t1]
      exact h3
    · rw [hstep, t1, h4, t3, phasePartE_insert_group]
    · intro n
      rw [hstep, t1, h5 n, t5 (HKey.phase n) (fun tid h => HKey.noConfusion h),
        envLookup_insert_ne env (HKey.phase n) (HKey.group (groupKeyStr p g)) _
          (fun h => HKey.noConfusion h)]

lemma phases_seg (doc : TasksDocument) (ps : List Phase) :
    ∀ (st : HState) (env : List (HKey × RIssue)) (pm : List (Int × RIssue))
      (gm tm : List (String × RIssue)),
      pm = phasePartE env → gm = groupPartE env → tm = taskPartE env →
      (runScript ((ps.map (phaseEnts doc)).flatten) st env).1 =
        (ps.foldl (phaseStepH doc) (st, pm, gm, tm)).1 ∧
      phasePartE (runScript ((ps.map (phaseEnts doc)).flatten) st env).2 =
        (ps.foldl (phaseStepH doc) (st, pm, gm, tm)).2.1 ∧
      groupPartE (runScript ((ps.map (phaseEnts doc)).flatten) st env).2 =
        (ps.foldl (phaseStepH doc) (st, pm, gm, tm)).2.2.1 ∧
      taskPartE (runScript ((ps.map (phaseEnts doc)).flatten) st env).2 =
        (ps.foldl (phaseStepH doc) (st, pm, gm, tm)).2.2.2 := by
  induction ps with
  | nil =>
    intro st env pm gm tm hpm hgm htm
    exact ⟨rfl, hpm.symm, hgm.symm, htm.symm⟩
  | cons p ps2 ih =>
    intro st env pm gm tm hpm hgm htm
    have hstep : runScript (((p :: ps2).map (phaseEnts doc)).flatten) st env =
        runScript ((ps2.map (phaseEnts doc)).flatten)
          (runScript (p.direct_tasks.map (taskEnt (HKey.phase p.number)))
            (runScript ((p.groups.map (groupEnts doc p)).flatten)
              (createIssueStep st (phaseTitle p) (phaseBody doc p) none).1
              (envInsert env (HKey.phase p.number)
                (createIssueStep st (phaseTitle p) (phaseBody doc p) none).2)).1
            (runScript ((p.groups.map (groupEnts doc p)).flatten)
              (createIssueStep st (phaseTitle p) (phaseBody doc p) none).1
              (envInsert env (HKey.phase p.number)
                (createIssueStep st (phaseTitle p) (phaseBody doc p) none).2)).2).1
          (runScript (p.direct_tasks.map (taskEnt (HKey.phase p.number)))
            (runScript ((p.groups.map (groupEnts doc p)).flatten)
              (createIssueStep st (phaseTitle p) (phaseBody doc p) none).1
              (envInsert env (HKey.phase p.number)
                (createIssueStep st (phaseTitle p) (phaseBody doc p) none).2)).1
            (runScript ((p.groups.map (groupEnts doc p)).flatten)
              (createIssueStep st (phaseTitle p) (phaseBody doc p) none).1
              (envInsert env (HKey.phase p.number)
                (createIssueStep st (phaseTitle p) (phaseBody doc p) none).2)).2).2 := by
      simp only [List.map_cons, List.flatten_cons, phaseEnts, List.cons_append, runScript,
        List.append_assoc, List.append_eq, runScript_append]
    have hlkg : (envLookup (envInsert env (HKey.phase p.number)
          (createIssueStep st (phaseTitle p) (phaseBody doc p) none).2)
            (HKey.phase p.number)).map (fun i => i.id) =
        some (createIssueStep st (phaseTitle p) (phaseBody doc p) none).2.id := by
      rw [envLookup_insert_eq]
      rfl
    have hgmg : gm = groupPartE (envInsert env (HKey.phase p.number)
        (createIssueStep st (phaseTitle p) (phaseBody doc p) none).2) := by
      rw [groupPartE_insert_phase]
      exact hgm
    have htmg : tm = taskPartE (envInsert env (HKey.phase p.number)
        (createIssueStep st (phaseTitle p) (phaseBody doc p) none).2) := by
      rw [taskPartE_insert_phase]
      exact htm
    obtain ⟨g1, g2, g3, g4, g5⟩ := groups_seg doc p
      (createIssueStep st (phaseTitle p) (phaseBody doc p) none).2.id p.groups
      (createIssueStep st (phaseTitle p) (phaseBody doc p) none).1
      (envInsert env (HKey.phase p.number)
        (createIssueStep st (phaseTitle p) (phaseBody doc p) none).2)
      gm tm hlkg hgmg htmg
    have hlkt : (envLookup (runScript ((p.groups.map (groupEnts doc p)).flatten)
          (createIssueStep st (phaseTitle p) (phaseBody doc p) none).1
          (envInsert env (HKey.phase p.number)
            (createIssueStep st (phaseTitle p) (phaseBody doc p) none).2)).2
          (HKey.phase p.number)).map (fun i => i.id) =
        some (createIssueStep st (phaseTitle p) (phaseBody doc p) none).2.id := by
      rw [g5 p.number]
      exact hlkg
    have htmt : (p.groups.foldl (groupStepH doc p
        (createIssueStep st (phaseTitle p) (phaseBody doc p) none).2.id)
        ((createIssueStep st (phaseTitle p) (phaseBody doc p) none).1, gm, tm)).2.2 =
        taskPartE (runScript ((p.groups.map (groupEnts doc p)).flatten)
          (createIssueStep st (phaseTitle p) (phaseBody doc p) none).1
          (envInsert env (HKey.phase p.number)
            (createIssueStep st (phaseTitle p) (phaseBody doc p) none).2)).2 := by
      rw [g3]
    obtain ⟨t1, t2, t3, t4, t5⟩ := tasks_seg (HKey.phase p.number)
      (createIssueStep st (phaseTitle p) (phaseBody doc p) none).2.id p.direct_tasks
      (fun tid h => HKey.noConfusion h)
      (runScript ((p.groups.map (groupEnts doc p)).flatten)
        (createIssueStep st (phaseTitle p) (phaseBody doc p) none).1
        (envInsert env (HKey.phase p.number)
          (createIssueStep st (phaseTitle p) (phaseBody doc p) none).2)).1
      (runScript ((p.groups.map (groupEnts doc p)).flatten)
        (createIssueStep st (phaseTitle p) (phaseBody doc p) none).1
        (envInsert env (HKey.phase p.number)
          (createIssueStep st (phaseTitle p) (phaseBody doc p) none).2)).2
      (p.groups.foldl (groupStepH doc p
        (createIssueStep st (phaseTitle p) (phaseBody doc p) none).2.id)
        ((createIssueStep st (phaseTitle p) (phaseBody doc p) none).1, gm, tm)).2.2
      hlkt htmt
    have hpm3 : mapInsertP pm p.number
        (createIssueStep st (phaseTitle p) (phaseBody doc p) none).2 =
        phasePartE (runScript (p.direct_tasks.map (taskEnt (HKey.phase p.number)))
          (runScript ((p.groups.map (groupEnts doc p)).flatten)
            (createIssueStep st (phaseTitle p) (phaseBody doc p) none).1
            (envInsert env (HKey.phase p.number)
              (createIssueStep st (phaseTitle p) (phaseBody doc p) none).2)).1
          (runScript ((p.groups.map (groupEnts doc p)).flatten)
            (createIssueStep st (phaseTitle p) (phaseBody doc p) none).1
            (envInsert env (HKey.phase p.number)
              (createIssueStep st (phaseTitle p) (phaseBody doc p) none).2)).2).2 := by
      rw [t3, g4, phasePartE_insert_phase, ← hpm]
    have hgm3 : (p.groups.foldl (groupStepH doc p
        (createIssueStep st (phaseTitle p) (phaseBody doc p) none).2.id)
        ((createIssueStep st (phaseTitle p) (phaseBody doc p) none).1, gm, tm)).2.1 =
        groupPartE (runScript (p.direct_tasks.map (taskEnt (HKey.phase p.number)))
          (runScript ((p.groups.map (groupEnts doc p)).flatten)
            (createIssueStep st (phaseTitle p) (phaseBody doc p) none).1
            (envInsert env (HKey.phase p.number)
              (createIssueStep st (phaseTitle p) (phaseBody doc p) none).2)).1
          (runScript ((p.groups.map (groupEnts doc p)).flatten)
            (createIssueStep st (phaseTitle p) (phaseBody doc p) none).1
            (envInsert env (HKey.phase p.number)
              (createIssueStep st (phaseTitle p) (phaseBody doc p) none).2)).2).2 := by
      rw [t4, g2]
    have htm3 : (p.direct_tasks.foldl (taskStepH
        (createIssueStep st (phaseTitle p) (phaseBody doc p) none).2.id)
        ((runScript ((p.groups.map (groupEnts doc p)).flatten)
          (createIssueStep st (phaseTitle p) (phaseBody doc p) none).1
          (envInsert env (HKey.phase p.number)
            (createIssueStep st (phaseTitle p) (phaseBody doc p) none).2)).1,
          (p.groups.foldl (groupStepH doc p
            (createIssueStep st (phaseTitle p) (phaseBody doc p) none).2.id)
            ((createIssueStep st (phaseTitle p) (phaseBody doc p) none).1, gm, tm)).2.2)).2 =
        taskPartE (runScript (p.direct_tasks.map (taskEnt (HKey.phase p.number)))
          (runScript ((p.groups.map (groupEnts doc p)).flatten)
            (createIssueStep st (phaseTitle p) (phaseBody doc p) none).1
            (envInsert env (HKey.phase p.number)
              (createIssueStep st (phaseTitle p) (phaseBody doc p) none).2)).1
          (runScript ((p.groups.map (groupEnts doc p)).flatten)
            (createIssueStep st (phaseTitle p) (phaseBody doc p) none).1
            (envInsert env (HKey.phase p.number)
              (createIssueStep st (phaseTitle p) (phaseBody doc p) none).2)).2).2 := by
      rw [t2]
    obtain ⟨h1, h2, h3, h4⟩ := ih _ _ _ _ _ hpm3 hgm3 htm3
    have hfold : (p :: ps2).foldl (phaseStepH doc) (st, pm, gm, tm) =
        ps2.foldl (phaseStepH doc)
          ((p.direct_tasks.foldl (taskStepH
              (createIssueStep st (phaseTitle p) (phaseBody doc p) none).2.id)
              ((p.groups.foldl (groupStepH doc p
                (createIssueStep st (phaseTitle p) (phaseBody doc p) none).2.id)
                ((createIssueStep st (phaseTitle p) (phaseBody doc p) none).1, gm, tm)).1,
                (p.groups.foldl (groupStepH doc p
                  (createIssueStep st (phaseTitle p) (phaseBody doc p) none).2.id)
                  ((createIssueStep st (phaseTitle p) (phaseBody doc p) none).1, gm, tm)).2.2)).1,
            mapInsertP pm p.number
              (createIssueStep st (phaseTitle p) (phaseBody doc p) none).2,
            (p.groups.foldl (groupStepH doc p
              (createIssueStep st (phaseTitle p) (phaseBody doc p) none).2.id)
              ((createIssueStep st (phaseTitle p) (phaseBody doc p) none).1, gm, tm)).2.1,
            (p.direct_tasks.foldl (taskStepH
              (createIssueStep st (phaseTitle p) (phaseBody doc p) none).2.id)
              ((p.groups.foldl (groupStepH doc p
                (createIssueStep st (phaseTitle p) (phaseBody doc p) none).2.id)
                ((createIssueStep st (phaseTitle p) (phaseBody doc p) none).1, gm, tm)).1,
                (p.groups.foldl (groupStepH doc p
                  (createIssueStep st (phaseTitle p) (phaseBody doc p) none).2.id)
                  ((createIssueStep st (phaseTitle p) (phaseBody doc p) none).1, gm, tm)).2.2)).2) := by
      simp only [List.foldl_cons, phaseStepH]
    refine ⟨?_, ?_, ?_, ?_⟩
    · rw [hstep, hfold, ← g1, ← t1]
      exact h1
    · rw [hstep, hfold, ← g1, ← t1]
      exact h2
    · rw [hstep, hfold, ← g1, ← t1]
      exact h3
    · rw [hstep, hfold, ← g1, ← t1]
      exact h4

lemma hier_state_eq (doc : TasksDocument) (st : HState) :
    (create_hierarchy doc st).1 = (runScript (scriptOf doc) st []).1 := by
  obtain ⟨h1, h2, h3, h4⟩ := phases_seg doc doc.phases st [] [] [] [] rfl rfl rfl
  exact h1.symm

lemma hier_pm_eq (doc : TasksDocument) (st : HState) :
    (create_hierarchy doc st).2.1 = phasePartE (runScript (scriptOf doc) st []).2 := by
  obtain ⟨h1, h2, h3, h4⟩ := phases_seg doc doc.phases st [] [] [] [] rfl rfl rfl
  exact h2.symm

lemma hier_gm_eq (doc : TasksDocument) (st : HState) :
    (create_hierarchy doc st).2.2.1 = groupPartE (runScript (scriptOf doc) st []).2 := by
  obtain ⟨h1, h2, h3, h4⟩ := phases_seg doc doc.phases st [] [] [] [] rfl rfl rfl
  exact h3.symm

lemma hier_tm_eq (doc : TasksDocument) (st : HState) :
    (create_hierarchy doc st).2.2.2 = taskPartE (runScript (scriptOf doc) st []).2 := by
  obtain ⟨h1, h2, h3, h4⟩ := phases_seg doc doc.phases st [] [] [] [] rfl rfl rfl
  exact h4.symm

lemma envRel_phase_ids : ∀ (e1 e2 : List (HKey × RIssue)), envRel e1 e2 →
    mapIds (phasePartE e1) = mapIds (phasePartE e2) := by
  intro e1
  induction e1 with
  | nil =>
    intro e2 h
    cases e2 with
    | nil => rfl
    | cons kv rest => exact absurd h (by simp [envRel])
  | cons kv1 rest1 ih =>
    intro e2 h
    cases e2 with
    | nil => exact absurd h (by simp [envRel])
    | cons kv2 rest2 =>
      obtain ⟨k1, i1⟩ := kv1
      obtain ⟨k2, i2⟩ := kv2
      obtain ⟨hk, hid, hrest⟩ := h
      subst hk
      cases k1 with
      | phase n => simpa [phasePartE, mapIds, hid] using ih rest2 hrest
      | group s => simpa [phasePartE, mapIds] using ih rest2 hrest
      | task s => simpa [phasePartE, mapIds] using ih rest2 hrest

lemma envRel_group_ids : ∀ (e1 e2 : List (HKey × RIssue)), envRel e1 e2 →
    mapIds (groupPartE e1) = mapIds (groupPartE e2) := by
  intro e1
  induction e1 with
  | nil =>
    intro e2 h
    cases e2 with
    | nil => rfl
    | cons kv rest => exact absurd h (by simp [envRel])
  | cons kv1 rest1 ih =>
    intro e2 h
    cases e2 with
    | nil => exact absurd h (by simp [envRel])
    | cons kv2 rest2 =>
      obtain ⟨k1, i1⟩ := kv1
      obtain ⟨k2, i2⟩ := kv2
      obtain ⟨hk, hid, hrest⟩ := h
      subst hk
      cases k1 with
      | phase n => simpa [groupPartE, mapIds] using ih rest2 hrest
      | group s => simpa [groupPartE, mapIds, hid] using ih rest2 hrest
      | task s => simpa [groupPartE, mapIds] using ih rest2 hrest

lemma envRel_task_ids : ∀ (e1 e2 : List (HKey × RIssue)), envRel e1 e2 →
    mapIds (taskPartE e1) = mapIds (taskPartE e2) := by
  intro e1
  induction e1 with
  | nil =>
    intro e2 h
    cases e2 with
    | nil => rfl
    | cons kv rest => exact absurd h (by simp [envRel])
  | cons kv1 rest1 ih =>
    intro e2 h
    cases e2 with
    | nil => exact absurd h (by simp [envRel])
    | cons kv2 rest2 =>
      obtain ⟨k1, i1⟩ := kv1
      obtain ⟨k2, i2⟩ := kv2
      obtain ⟨hk, hid, hrest⟩ := h
      subst hk
      cases k1 with
      | phase n => simpa [taskPartE, mapIds] using ih rest2 hrest
      | group s => simpa [taskPartE, mapIds] using ih rest2 hrest
      | task s => simpa [taskPartE, mapIds, hid] using ih rest2 hrest

/-- C5: the hierarchy build is idempotent.  For every document and every
starting remote state, running `create_hierarchy` a second time against the
remote state left by the first run (call counters observed per run) returns
identical phase/group/task issue-id maps and issues zero additional
create-issue and zero additional add-to-project calls; and `_create_issue`
re-writes the body of an existing `(title, parent)` match exactly when the
newly computed body differs from the stored one. -/
theorem c5_hierarchy_build_idempotent :
    (∀ (doc : TasksDocument) (st0 : HState),
      mapIds (create_hierarchy doc (resetCalls (create_hierarchy doc (resetCalls st0)).1)).2.1 =
        mapIds (create_hierarchy doc (resetCalls st0)).2.1 ∧
      mapIds (create_hierarchy doc (resetCalls (create_hierarchy doc (resetCalls st0)).1)).2.2.1 =
        mapIds (create_hierarchy doc (resetCalls st0)).2.2.1 ∧
      mapIds (create_hierarchy doc (resetCalls (create_hierarchy doc (resetCalls st0)).1)).2.2.2 =
        mapIds (create_hierarchy doc (resetCalls st0)).2.2.2 ∧
      (create_hierarchy doc (resetCalls (create_hierarchy doc (resetCalls st0)).1)).1.creates = 0 ∧
      (create_hierarchy doc (resetCalls (create_hierarchy doc (resetCalls st0)).1)).1.adds = 0) ∧
    (∀ (st : HState) (t b : String) (p : Option String),
      (createIssueStep st t b p).1.updates =
        st.updates + (match findExisting st.issues t p with
          | some ex => (if b = ex.body then 0 else 1)
          | none => 0)) := by
  constructor
  · intro doc st0
    have hse : (create_hierarchy doc (resetCalls st0)).1 =
        (runScript (scriptOf doc) (resetCalls st0) []).1 := hier_state_eq doc (resetCalls st0)
    have hskel : issuesSkel (resetCalls (create_hierarchy doc (resetCalls st0)).1).issues =
        issuesSkel (runScript (scriptOf doc) (resetCalls st0) []).1.issues := by
      show issuesSkel (create_hierarchy doc (resetCalls st0)).1.issues = _
      rw [hse]
    have hproj : (resetCalls (create_hierarchy doc (resetCalls st0)).1).projIds =
        (runScript (scriptOf doc) (resetCalls st0) []).1.projIds := by
      show (create_hierarchy doc (resetCalls st0)).1.projIds = _
      rw [hse]
    obtain ⟨hc, ha, hpj, hsk, henv⟩ := replay (scriptOf doc) (resetCalls st0)
      (resetCalls (create_hierarchy doc (resetCalls st0)).1) [] [] trivial hskel hproj
    have hse2 : (create_hierarchy doc (resetCalls (create_hierarchy doc (resetCalls st0)).1)).1 =
        (runScript (scriptOf doc) (resetCalls (create_hierarchy doc (resetCalls st0)).1) []).1 :=
      hier_state_eq doc _
    refine ⟨?_, ?_, ?_, ?_, ?_⟩
    · rw [hier_pm_eq doc (resetCalls (create_hierarchy doc (resetCalls st0)).1),
        hier_pm_eq doc (resetCalls st0)]
      exact (envRel_phase_ids _ _ henv).symm
    · rw [hier_gm_eq doc (resetCalls (create_hierarchy doc (resetCalls st0)).1),
        hier_gm_eq doc (resetCalls st0)]
      exact (envRel_group_ids _ _ henv).symm
    · rw [hier_tm_eq doc (resetCalls (create_hierarchy doc (resetCalls st0)).1),
        hier_tm_eq doc (resetCalls st0)]
      exact (envRel_task_ids _ _ henv).symm
    · rw [hse2]
      exact hc
    · rw [hse2]
      exact ha
  · intro st t b p
    cases hf : findExisting st.issues t p with
    | some ex =>
      by_cases hb : b = ex.body
      · simp only [createIssueStep, hf, hb, if_pos]
        split_ifs <;> simp
      · simp only [createIssueStep, hf, hb, if_neg, ite_false]
        split_ifs <;> simp
    | none => simp [createIssueStep, hf]

/-- Witness for C9: a prose line is inert and its insertion between a phase
heading and a task line leaves the document unchanged. -/
theorem c9_parser_total_and_skips_unrecognized_witness :
    inertLine "this line matches nothing".data = true ∧
      parseLinesCs (["# Tasks: Demo".data, "## Phase 1: Setup".data] ++
          "this line matches nothing".data :: ["- [ ] T001 first step".data]) =
        parseLinesCs (["# Tasks: Demo".data, "## Phase 1: Setup".data] ++
          ["- [ ] T001 first step".data]) :=
  ⟨by decide, c9_parser_total_and_skips_unrecognized.1
    ["# Tasks: Demo".data, "## Phase 1: Setup".data]
    ["- [ ] T001 first step".data] "this line matches nothing".data (by decide)⟩

lemma find_intStrEq_none (l : List Phase) (s : String) :
    l.find? (fun p => intStrEq p.number s) = none := by
  induction l with
  | nil => rfl
  | cons p rest ih => simp [List.find?_cons, intStrEq, ih]

lemma groupFieldStep_muts (doc : TasksDocument) (pages : List (List PItem)) (f : FieldIds)
    (acc : List FMut × Nat × Nat) (kv : String × RIssue) :
    (groupFieldStep doc pages f acc kv).1 = acc.1 ∧
      (groupFieldStep doc pages f acc kv).2.2 = acc.2.2 := by
  cases hsp : splitColonGo kv.1.data [] with
  | none => simp [groupFieldStep, hsp]
  | some pr =>
    cases hfind : (get_project_item_id pages kv.2.number).1 with
    | none => simp [groupFieldStep, hsp, hfind]
    | some item => simp [groupFieldStep, hsp, hfind, find_intStrEq_none]

lemma groupFold_muts (doc : TasksDocument) (pages : List (List PItem)) (f : FieldIds) :
    ∀ (gm : List (String × RIssue)) (acc : List FMut × Nat × Nat),
      (gm.foldl (groupFieldStep doc pages f) acc).1 = acc.1 ∧
        (gm.foldl (groupFieldStep doc pages f) acc).2.2 = acc.2.2 := by
  intro gm
  induction gm with
  | nil =>
    intro acc
    exact ⟨rfl, rfl⟩
  | cons kv rest ih =>
    intro acc
    obtain ⟨h1, h2⟩ := groupFieldStep_muts doc pages f acc kv
    obtain ⟨h3, h4⟩ := ih (groupFieldStep doc pages f acc kv)
    exact ⟨by rw [List.foldl_cons, h3, h1], by rw [List.foldl_cons, h4, h2]⟩

/-- C6: the Field Value Assignor never sets any field on any group issue:
the group loop of `set_field_values_all` compares the document's `int`
phase number with the string split off the group key, which in Python is
always `False`, so the phase resolution fails for every group key.  The
second half pins down a run where the claim demands a Phase single-select
mutation — the group key `1:Core` names phase 1 `Setup` (whose rendered
number is the split-off string `1`) and its group `Core`, and the option
`Phase 1: Setup` exists — yet no group mutation is issued. -/
theorem c6_group_phase_field_never_set :
    (∀ (doc : TasksDocument) (pages : List (List PItem)) (tm gm : List (String × RIssue))
      (f : FieldIds),
      (set_field_values_all doc pages tm gm f).groupMuts = [] ∧
        (set_field_values_all doc pages tm gm f).groupSet = 0) ∧
    ((set_field_values_all exDocC6 exPagesC6 [] [("1:Core", exIssueC6)] exFieldIds).groupMuts
        = [] ∧
      splitColonGo "1:Core".data [] = some ("1", "Core") ∧
      toString exPhaseC6.number = "1" ∧
      optLookup exFieldIds.phaseOptions
        ("Phase " ++ toString exPhaseC6.number ++ ": " ++ exPhaseC6.title) = some "OPT_P1" ∧
      (exPhaseC6.groups.find? (fun g => g.title == "Core")).isSome = true ∧
      findNumP (exPagesC6.headD []) exIssueC6.number = some "ITEM_7") := by
  constructor
  · intro doc pages tm gm f
    obtain ⟨h1, h2⟩ := groupFold_muts doc pages f gm ([], 0, 0)
    exact ⟨h1, h2⟩
  · exact ⟨rfl, rfl, rfl, rfl, rfl, rfl⟩

lemma gpi_single (pg : List PItem) (n : Nat) : (get_project_item_id [pg] n).2 = 1 := by
  cases h : findNumP pg n with
  | none => simp [get_project_item_id, gpiGo, h]
  | some iid => simp [get_project_item_id, gpiGo, h]

lemma taskFieldStep_reqs (doc : TasksDocument) (pages : List (List PItem)) (f : FieldIds)
    (acc : List FMut × Nat × Nat) (kv : String × RIssue) :
    (taskFieldStep doc pages f acc kv).2.1 =
      acc.2.1 + (get_project_item_id pages kv.2.number).2 := by
  cases h1 : (get_project_item_id pages kv.2.number).1 with
  | none => simp [taskFieldStep, h1]
  | some item =>
    cases h2 : doc.all_tasks.find? (fun t => t.id == kv.1) with
    | none => simp [taskFieldStep, h1, h2]
    | some task =>
      cases h3 : doc.phases.find? (fun p => p.number == task.phase_number) with
      | none => simp [taskFieldStep, h1, h2, h3]
      | some phase => simp [taskFieldStep, h1, h2, h3]

lemma groupFieldStep_reqs (doc : TasksDocument) (pages : List (List PItem)) (f : FieldIds)
    (acc : List FMut × Nat × Nat) (kv : String × RIssue) :
    (groupFieldStep doc pages f acc kv).2.1 =
      acc.2.1 + (match splitColonGo kv.1.data [] with
        | some _ => (get_project_item_id pages kv.2.number).2
        | none => 0) := by
  cases hsp : splitColonGo kv.1.data [] with
  | none => simp [groupFieldStep, hsp]
  | some pr =>
    simp only [groupFieldStep, hsp]
    cases (get_project_item_id pages kv.2.number).1 with
    | none => rfl
    | some item =>
      rw [find_intStrEq_none]

lemma splitColonGo_isSome (cs : List Char) : ∀ seen : List Char,
    (splitColonGo cs seen).isSome = cs.contains (Char.ofNat 58) := by
  induction cs with
  | nil =>
    intro seen
    rfl
  | cons c rest ih =>
    intro seen
    by_cases h : c = Char.ofNat 58
    · simp [splitColonGo, h]
    · simp [splitColonGo, h, ih]
      intro he
      exact absurd he.symm h

lemma taskFold_reqs_single (doc : TasksDocument) (pg : List PItem) (f : FieldIds) :
    ∀ (tm : List (String × RIssue)) (acc : List FMut × Nat × Nat),
      (tm.foldl (taskFieldStep doc [pg] f) acc).2.1 = acc.2.1 + tm.length := by
  intro tm
  induction tm with
  | nil =>
    intro acc
    simp
  | cons kv rest ih =>
    intro acc
    rw [List.foldl_cons, ih, taskFieldStep_reqs, gpi_single]
    simp only [List.length_cons]
    omega

lemma groupFold_reqs_single (doc : TasksDocument) (pg : List PItem) (f : FieldIds) :
    ∀ (gm : List (String × RIssue)) (acc : List FMut × Nat × Nat),
      (gm.foldl (groupFieldStep doc [pg] f) acc).2.1 =
        acc.2.1 + gm.countP (fun kv => kv.1.data.contains (Char.ofNat 58)) := by
  intro gm
  induction gm with
  | nil =>
    intro acc
    simp
  | cons kv rest ih =>
    intro acc
    rw [List.foldl_cons, ih, groupFieldStep_reqs, List.countP_cons]
    cases hsp : splitColonGo kv.1.data [] with
    | none =>
      have hc : kv.1.data.contains (Char.ofNat 58) = false := by
        rw [← splitColonGo_isSome kv.1.data [], hsp]
        rfl
      simp only [hc]
      simp
    | some pr =>
      have hc : kv.1.data.contains (Char.ofNat 58) = true := by
        rw [← splitColonGo_isSome kv.1.data [], hsp]
        rfl
      rw [gpi_single]
      simp only [hc]
      simp
      omega

/-- C7: the project-item lookup is re-paginated per issue, not built once
per sync.  For a single-page project, `set_field_values_all` issues exactly
one item-list page request per task-map entry plus one per well-formed
(colon-holding) group-map key, so the request count grows linearly with the
number of issues — as the concrete one-task versus two-task runs show —
instead of being the single pagination pass per sync that the claim
demands. -/
theorem c7_item_lookup_repaginated_per_issue :
    (∀ (doc : TasksDocument) (pg : List PItem) (tm gm : List (String × RIssue))
      (f : FieldIds),
      (set_field_values_all doc [pg] tm gm f).pageReqs =
        tm.length + gm.countP (fun kv => kv.1.data.contains (Char.ofNat 58))) ∧
    (set_field_values_all exDocC6 exPagesC6 [("T001", exIssueC6)] [] exFieldIds).pageReqs
        = 1 ∧
    (set_field_values_all exDocC6 exPagesC6 [("T001", exIssueC6), ("T002", exIssueC7)] []
        exFieldIds).pageReqs = 2 := by
  refine ⟨?_, rfl, rfl⟩
  intro doc pg tm gm f
  have h1 := taskFold_reqs_single doc pg f tm ([], 0, 0)
  have h2 := groupFold_reqs_single doc pg f gm ([], 0, 0)
  show (tm.foldl (taskFieldStep doc [pg] f) ([], 0, 0)).2.1 +
      (gm.foldl (groupFieldStep doc [pg] f) ([], 0, 0)).2.1 = _
  rw [h1, h2]
  simp

/-- C8: the Dependency Linker's per-edge error handling, stated as the
behaviour of `create_dependencies` on the head entry of its graph: a
dependent task with no known issue skips the whole blocker list (counting,
not raising) and processing continues; a missing blocker is skipped and
counted; a successful gateway call counts a created link; a gateway error
whose message holds both "already" and "block" (case-insensitive) is
treated as success-with-skip and processing continues; any other gateway
error is re-raised and aborts the linking step (the remaining entries are
never processed). -/
theorem c8_dependency_link_tolerance :
    (∀ (gw : String → String → GwRes) (tm : List (String × RIssue)) (tid : String)
      (bs : List String) (rest : List (String × List String)),
      lookupS tm tid = none →
      create_dependencies gw ⟨(tid, bs) :: rest⟩ tm = depEntries gw tm rest (0, bs.length)) ∧
    (∀ (gw : String → String → GwRes) (tm : List (String × RIssue)) (tid b : String)
      (rest : List (String × List String)) (di : RIssue),
      lookupS tm tid = some di → lookupS tm b = none →
      create_dependencies gw ⟨(tid, [b]) :: rest⟩ tm = depEntries gw tm rest (0, 1)) ∧
    (∀ (gw : String → String → GwRes) (tm : List (String × RIssue)) (tid b : String)
      (rest : List (String × List String)) (di bi : RIssue),
      lookupS tm tid = some di → lookupS tm b = some bi →
      gw di.id bi.id = GwRes.ok →
      create_dependencies gw ⟨(tid, [b]) :: rest⟩ tm = depEntries gw tm rest (1, 0)) ∧
    (∀ (gw : String → String → GwRes) (tm : List (String × RIssue)) (tid b : String)
      (rest : List (String × List String)) (di bi : RIssue) (m : String),
      lookupS tm tid = some di → lookupS tm b = some bi →
      gw di.id bi.id = GwRes.err m → isAlreadyBlock m = true →
      create_dependencies gw ⟨(tid, [b]) :: rest⟩ tm = depEntries gw tm rest (0, 1)) ∧
    (∀ (gw : String → String → GwRes) (tm : List (String × RIssue)) (tid b : String)
      (rest : List (String × List String)) (di bi : RIssue) (m : String),
      lookupS tm tid = some di → lookupS tm b = some bi →
      gw di.id bi.id = GwRes.err m → isAlreadyBlock m = false →
      create_dependencies gw ⟨(tid, [b]) :: rest⟩ tm = Except.error m) := by
  refine ⟨?_, ?_, ?_, ?_, ?_⟩
  · intro gw tm tid bs rest h
    simp [create_dependencies, depEntries, h]
  · intro gw tm tid b rest di h1 h2
    simp [create_dependencies, depEntries, linkBlockers, h1, h2]
  · intro gw tm tid b rest di bi h1 h2 h3
    simp [create_dependencies, depEntries, linkBlockers, h1, h2, h3]
  · intro gw tm tid b rest di bi m h1 h2 h3 h4
    simp [create_dependencies, depEntries, linkBlockers, h1, h2, h3, h4]
  · intro gw tm tid b rest di bi m h1 h2 h3 h4
    simp [create_dependencies, depEntries, linkBlockers, h1, h2, h3, h4]

/-- Witness for C8: against a two-task map, requesting the link the gateway
reports as already existing yields a skip (no error), and a dependent task
with no known issue is skipped and counted. -/
theorem c8_dependency_link_tolerance_witness :
    create_dependencies exGw8 ⟨[("T002", ["T001"])]⟩ exTm8 = Except.ok (0, 1) ∧
    create_dependencies exGw8 ⟨[("T404", ["T001"])]⟩ exTm8 = Except.ok (0, 1) := by
  constructor
  · exact (c8_dependency_link_tolerance.2.2.2.1 exGw8 exTm8 "T002" "T001" []
      { id := "ID_A", number := 2, title := "[T002] b", body := "", parent := none }
      { id := "ID_B", number := 1, title := "[T001] a", body := "", parent := none }
      "Issue is already blocked by this issue" rfl rfl rfl (by decide)).trans rfl
  · exact (c8_dependency_link_tolerance.1 exGw8 exTm8 "T404" ["T001"] [] rfl).trans rfl

lemma csLookup_setState_ne (m : List (String × CIssue)) (j k s : String) (h : k ≠ j) :
    csLookup (csSetState m j s) k = csLookup m k := by
  induction m with
  | nil => rfl
  | cons kv rest ih =>
    have hjk : ¬ j = k := fun he => h he.symm
    by_cases hj : kv.1 = j
    · have hk : ¬ kv.1 = k := by
        rw [hj]
        exact hjk
      simp [csSetState, csLookup, hj, hk, ih, hjk]
    · by_cases hk : kv.1 = k
      · simp [csSetState, csLookup, hj, hk, h]
      · simp [csSetState, csLookup, hj, hk, ih]

lemma csLookup_setState_eq (m : List (String × CIssue)) (j s : String) :
    csLookup (csSetState m j s) j =
      (csLookup m j).map (fun i => { i with state := s }) := by
  induction m with
  | nil => rfl
  | cons kv rest ih =>
    by_cases hj : kv.1 = j
    · simp [csSetState, csLookup, hj]
    · simp [csSetState, csLookup, hj, ih]

lemma csLookup_setState_isNone (m : List (String × CIssue)) (j s k : String) :
    (csLookup (csSetState m j s) k).isNone = (csLookup m k).isNone := by
  by_cases h : k = j
  · subst h
    rw [csLookup_setState_eq]
    cases csLookup m k <;> rfl
  · rw [csLookup_setState_ne m j k s h]

lemma csStep_lookup_ne (acc : List (String × CIssue) × List (String × String) × Nat)
    (t : Task) (k : String) (h : t.id ≠ k) :
    csLookup (csStep acc t).1 k = csLookup acc.1 k := by
  cases hl : csLookup acc.1 t.id with
  | none => simp [csStep, hl]
  | some iss =>
    by_cases hm : stateIsClosed iss.state = t.is_completed
    · simp [csStep, hl, hm]
    · simp [csStep, hl, hm, csLookup_setState_ne acc.1 t.id k _ (Ne.symm h)]

lemma csStep_lookup_isNone (acc : List (String × CIssue) × List (String × String) × Nat)
    (t : Task) (k : String) :
    (csLookup (csStep acc t).1 k).isNone = (csLookup acc.1 k).isNone := by
  cases hl : csLookup acc.1 t.id with
  | none => simp [csStep, hl]
  | some iss =>
    by_cases hm : stateIsClosed iss.state = t.is_completed
    · simp [csStep, hl, hm]
    · simp [csStep, hl, hm, csLookup_setState_isNone]

lemma csFold_lookup_notin (ts : List Task) :
    ∀ (acc : List (String × CIssue) × List (String × String) × Nat) (k : String),
      (∀ u ∈ ts, u.id ≠ k) →
      csLookup (ts.foldl csStep acc).1 k = csLookup acc.1 k := by
  induction ts with
  | nil =>
    intro acc k h
    rfl
  | cons t rest ih =>
    intro acc k h
    rw [List.foldl_cons, ih (csStep acc t) k (fun u hu => h u (List.mem_cons_of_mem t hu)),
      csStep_lookup_ne acc t k (h t (List.mem_cons_self t rest))]

lemma csFold_lookup_isNone (ts : List Task) :
    ∀ (acc : List (String × CIssue) × List (String × String) × Nat) (k : String),
      (csLookup (ts.foldl csStep acc).1 k).isNone = (csLookup acc.1 k).isNone := by
  induction ts with
  | nil =>
    intro acc k
    rfl
  | cons t rest ih =>
    intro acc k
    rw [List.foldl_cons, ih (csStep acc t) k, csStep_lookup_isNone]

lemma stateIsClosed_desired (b : Bool) : stateIsClosed (desiredState b) = b := by
  cases b <;> rfl

lemma csRound2 (ts : List Task) :
    ∀ (m : List (String × CIssue)) (u0 : List (String × String)) (s0 : Nat)
      (u : List (String × String)) (s : Nat),
      (ts.map Task.id).Nodup →
      (ts.foldl csStep ((ts.foldl csStep (m, u0, s0)).1, u, s)).1 =
        (ts.foldl csStep (m, u0, s0)).1 ∧
      (ts.foldl csStep ((ts.foldl csStep (m, u0, s0)).1, u, s)).2.1 = u := by
  induction ts with
  | nil =>
    intro m u0 s0 u s hnd
    exact ⟨rfl, rfl⟩
  | cons t rest ih =>
    intro m u0 s0 u s hnd
    have hnd2 := hnd
    rw [List.map_cons, List.nodup_cons] at hnd2
    have hnotin : ∀ u2 ∈ rest, u2.id ≠ t.id := by
      intro u2 hu2 he
      exact hnd2.1 (he ▸ List.mem_map_of_mem Task.id hu2)
    have hndr : (rest.map Task.id).Nodup := hnd2.2
    rw [List.foldl_cons, List.foldl_cons]
    cases hl : csLookup m t.id with
    | none =>
      have hstep1 : csStep (m, u0, s0) t = (m, u0, s0 + 1) := by
        simp [csStep, hl]
      have hfin : csLookup (rest.foldl csStep (m, u0, s0 + 1)).1 t.id = none := by
        have := csFold_lookup_isNone rest (m, u0, s0 + 1) t.id
        rw [hl] at this
        exact Option.isNone_iff_eq_none.mp (by simpa using this)
      have hstep2 : csStep ((rest.foldl csStep (m, u0, s0 + 1)).1, u, s) t =
          ((rest.foldl csStep (m, u0, s0 + 1)).1, u, s + 1) := by
        simp [csStep, hfin]
      rw [hstep1, hstep2]
      exact ih m u0 (s0 + 1) u (s + 1) hndr
    | some iss =>
      by_cases hm : stateIsClosed iss.state = t.is_completed
      · have hstep1 : csStep (m, u0, s0) t = (m, u0, s0) := by
          simp [csStep, hl, hm]
        have hfin : csLookup (rest.foldl csStep (m, u0, s0)).1 t.id = some iss := by
          rw [csFold_lookup_notin rest (m, u0, s0) t.id hnotin]
          exact hl
        have hstep2 : csStep ((rest.foldl csStep (m, u0, s0)).1, u, s) t =
            ((rest.foldl csStep (m, u0, s0)).1, u, s) := by
          simp [csStep, hfin, hm]
        rw [hstep1, hstep2]
        exact ih m u0 s0 u s hndr
      · have hstep1 : csStep (m, u0, s0) t =
            (csSetState m t.id (desiredState t.is_completed),
              u0 ++ [(iss.id, desiredState t.is_completed)], s0) := by
          simp [csStep, hl, hm]
        have hlk1 : csLookup (csSetState m t.id (desiredState t.is_completed)) t.id =
            some { iss with state := desiredState t.is_completed } := by
          rw [csLookup_setState_eq, hl]
          rfl
        have hfin : csLookup (rest.foldl csStep
            (csSetState m t.id (desiredState t.is_completed),
              u0 ++ [(iss.id, desiredState t.is_completed)], s0)).1 t.id =
            some { iss with state := desiredState t.is_completed } := by
          rw [csFold_lookup_notin rest _ t.id hnotin]
          exact hlk1
        have hstep2 : csStep ((rest.foldl csStep
            (csSetState m t.id (desiredState t.is_completed),
              u0 ++ [(iss.id, desiredState t.is_completed)], s0)).1, u, s) t =
            ((rest.foldl csStep
              (csSetState m t.id (desiredState t.is_completed),
                u0 ++ [(iss.id, desiredState t.is_completed)], s0)).1, u, s) := by
          simp [csStep, hfin, stateIsClosed_desired]
        rw [hstep1, hstep2]
        exact ih (csSetState m t.id (desiredState t.is_completed))
          (u0 ++ [(iss.id, desiredState t.is_completed)]) s0 u s hndr

lemma csRun1_updates (ts : List Task) :
    ∀ (m : List (String × CIssue)) (u0 : List (String × String)) (s0 : Nat),
      (ts.map Task.id).Nodup →
      (ts.foldl csStep (m, u0, s0)).2.1 = u0 ++ ts.filterMap (fun t =>
        match csLookup m t.id with
        | none => none
        | some iss =>
          if stateIsClosed iss.state = t.is_completed then none
          else some (iss.id, desiredState t.is_completed)) := by
  induction ts with
  | nil =>
    intro m u0 s0 hnd
    simp
  | cons t rest ih =>
    intro m u0 s0 hnd
    have hnd2 := hnd
    rw [List.map_cons, List.nodup_cons] at hnd2
    have hnotin : ∀ u2 ∈ rest, u2.id ≠ t.id := by
      intro u2 hu2 he
      exact hnd2.1 (he ▸ List.mem_map_of_mem Task.id hu2)
    have hndr : (rest.map Task.id).Nodup := hnd2.2
    rw [List.foldl_cons, List.filterMap_cons]
    cases hl : csLookup m t.id with
    | none =>
      have hstep1 : csStep (m, u0, s0) t = (m, u0, s0 + 1) := by
        simp [csStep, hl]
      rw [hstep1, ih m u0 (s0 + 1) hndr]
    | some iss =>
      by_cases hm : stateIsClosed iss.state = t.is_completed
      · have hstep1 : csStep (m, u0, s0) t = (m, u0, s0) := by
          simp [csStep, hl, hm]
        rw [hstep1, ih m u0 s0 hndr]
        simp [hm]
      · have hstep1 : csStep (m, u0, s0) t =
            (csSetState m t.id (desiredState t.is_completed),
              u0 ++ [(iss.id, desiredState t.is_completed)], s0) := by
          simp [csStep, hl, hm]
        rw [hstep1, ih _ _ s0 hndr]
        have hcong : rest.filterMap (fun t2 =>
            match csLookup (csSetState m t.id (desiredState t.is_completed)) t2.id with
            | none => none
            | some iss2 =>
              if stateIsClosed iss2.state = t2.is_completed then none
              else some (iss2.id, desiredState t2.is_completed)) =
            rest.filterMap (fun t2 =>
            match csLookup m t2.id with
            | none => none
            | some iss2 =>
              if stateIsClosed iss2.state = t2.is_completed then none
              else some (iss2.id, desiredState t2.is_completed)) := by
          apply List.filterMap_congr
          intro t2 ht2
          rw [csLookup_setState_ne m t.id t2.id _ (hnotin t2 ht2)]
        rw [hcong]
        simp [hm]

lemma csRun1_skipped (ts : List Task) :
    ∀ (m : List (String × CIssue)) (u0 : List (String × String)) (s0 : Nat),
      (ts.foldl csStep (m, u0, s0)).2.2 =
        s0 + ts.countP (fun t => (csLookup m t.id).isNone) := by
  induction ts with
  | nil =>
    intro m u0 s0
    simp
  | cons t rest ih =>
    intro m u0 s0
    rw [List.foldl_cons, List.countP_cons]
    cases hl : csLookup m t.id with
    | none =>
      have hstep1 : csStep (m, u0, s0) t = (m, u0, s0 + 1) := by
        simp [csStep, hl]
      rw [hstep1, ih m u0 (s0 + 1)]
      simp [hl]
      omega
    | some iss =>
      by_cases hm : stateIsClosed iss.state = t.is_completed
      · have hstep1 : csStep (m, u0, s0) t = (m, u0, s0) := by
          simp [csStep, hl, hm]
        rw [hstep1, ih m u0 s0]
        simp [hl]
      · have hstep1 : csStep (m, u0, s0) t =
            (csSetState m t.id (desiredState t.is_completed),
              u0 ++ [(iss.id, desiredState t.is_completed)], s0) := by
          simp [csStep, hl, hm]
        rw [hstep1, ih _ _ s0]
        have hcnt : rest.countP (fun t2 =>
            (csLookup (csSetState m t.id (desiredState t.is_completed)) t2.id).isNone) =
            rest.countP (fun t2 => (csLookup m t2.id).isNone) := by
          apply List.countP_congr
          intro t2 ht2
          rw [csLookup_setState_isNone]
        rw [hcnt]
        simp [hl]

/-- C1 (modelled from the spec: the Completion-State Synchronizer named by
the spec and exercised by the repository's CLI and tests has no `src`
implementation): over a document with pairwise distinct task ids, the sweep
issues exactly one `(issue id, CLOSED/OPEN)` state update for each task
whose cached state disagrees (case-normalized) with its `is_completed`
flag, and none for agreeing tasks; a second invocation with the unchanged
document issues zero updates; and the skipped count is exactly the number
of tasks with no known issue. -/
theorem c1_completion_state_sync (doc : TasksDocument) (m : List (String × CIssue))
    (h : (doc.all_tasks.map Task.id).Nodup) :
    (sync_completion_states doc m).2.1 = doc.all_tasks.filterMap (fun t =>
      match csLookup m t.id with
      | none => none
      | some iss =>
        if stateIsClosed iss.state = t.is_completed then none
        else some (iss.id, desiredState t.is_completed)) ∧
    (sync_completion_states doc (sync_completion_states doc m).1).2.1 = [] ∧
    (sync_completion_states doc m).2.2 =
      doc.all_tasks.countP (fun t => (csLookup m t.id).isNone) := by
  refine ⟨?_, ?_, ?_⟩
  · have h1 := csRun1_updates doc.all_tasks m [] 0 h
    simpa [sync_completion_states] using h1
  · exact (csRound2 doc.all_tasks m [] 0 [] 0 h).2
  · have h1 := csRun1_skipped doc.all_tasks m [] 0
    simpa [sync_completion_states] using h1

/-- Witness for C1: a one-task completed document against a still-open
cached issue — the first sweep issues the single `CLOSED` update, the
second sweep issues none, nothing is skipped. -/
theorem c1_completion_state_sync_witness :
    (exDocC1.all_tasks.map Task.id).Nodup ∧
    (sync_completion_states exDocC1 exMapC1).2.1 = [("I1", "CLOSED")] ∧
    (sync_completion_states exDocC1 (sync_completion_states exDocC1 exMapC1).1).2.1 = [] ∧
    (sync_completion_states exDocC1 exMapC1).2.2 = 0 := by
  have h := c1_completion_state_sync exDocC1 exMapC1 (by decide)
  exact ⟨by decide, by rw [h.1]; rfl, h.2.1, by rw [h.2.2]; rfl⟩

/-- C2 (modelled from the spec: the `src` copy of
`SyncEngine.sync_tasks_to_project` lacks the `dry_run` parameter its CLI
caller and the tests pass): with dry-run enabled the engine performs the
parse and the dependency-graph build, issues zero mutation calls to the
gateway, and persists nothing; without it the pipeline does issue
mutations, so the flag is what suppresses them. -/
theorem c2_dry_run_purity (content : String) :
    (sync_tasks_to_project content true).calls.filter (fun c => c.isMut) = [] ∧
    (sync_tasks_to_project content true).saves = [] ∧
    (sync_tasks_to_project content true).doc = parse_tasks_md content ∧
    (sync_tasks_to_project content true).graph =
      build_dependency_graph (parse_tasks_md content) ∧
    (sync_tasks_to_project content false).calls.filter (fun c => c.isMut) ≠ [] := by
  refine ⟨rfl, rfl, rfl, rfl, ?_⟩
  simp [sync_tasks_to_project, GwCall.isMut]

end SpecKit
